import Mathlib

/-!
Verification development for the note-parsing pipeline and in-memory
annotation store of the electron-timer-rest repository.

The TypeScript sources are shallowly embedded:
- src/main/parsers/DuokanParser.ts and src/main/parsers/WeChatParser.ts
  (the two NoteParser implementations),
- src/main/services/NotesManager.ts (the annotation store),
- src/main/formatters/MarkdownFormatter.ts (the renderer).

JavaScript Maps become insertion-ordered association lists, JS strings
become Lean String (substring/else scans are implemented directly over
the character lists), JSON.parse becomes a fuel-indexed JSON parser
returning Option, and the ambient nondeterminism (Date.now,
Date#toLocaleString, the Date constructor on matched date strings) is
packaged into an explicit JsEnv parameter.
-/

/-- Characters that the embedding treats as whitespace: this models the
JavaScript notions used by the sources (String#trim and the regex class
backslash-s) restricted to the ASCII whitespace actually occurring in the
repository's inputs. -/
def jsWs (c : Char) : Bool :=
  c = ' ' || c = '\t' || c = '\n' || c = '\r'

/-- Model of JavaScript String#trim. -/
def jsTrim (s : String) : String :=
  ⟨((s.data.dropWhile jsWs).reverse.dropWhile jsWs).reverse⟩

/-- Substring test on character lists: chList pat occurs contiguously in s.
Models JavaScript String#includes. -/
def chInfix (pat : List Char) : List Char → Bool
  | [] => pat.isEmpty
  | c :: rest => pat.isPrefixOf (c :: rest) || chInfix pat rest

/-- Model of JavaScript String#includes. -/
def sInc (s pat : String) : Bool :=
  chInfix pat.data s.data

/-- Model of JavaScript String#startsWith. -/
def sStarts (s pat : String) : Bool :=
  pat.data.isPrefixOf s.data

/-- Model of JavaScript String#toLowerCase (adequate for the ASCII and CJK
data the repository handles; CJK characters are fixed points). -/
def jsToLower (s : String) : String :=
  ⟨s.data.map Char.toLower⟩

/-- Split a character list at every occurrence of the separator character;
models JavaScript String#split with a single-character separator. -/
def splitOnChar (sep : Char) : List Char → List (List Char)
  | [] => [[]]
  | c :: rest =>
    match splitOnChar sep rest with
    | [] => [[]]
    | h :: t => if c = sep then [] :: h :: t else (c :: h) :: t

/-- Model of JavaScript content.split(c) producing strings. -/
def sSplit (s : String) (sep : Char) : List String :=
  (splitOnChar sep s.data).map (fun cs => ⟨cs⟩)

/-- True when the string is nonempty and consists only of ASCII digits;
models the regex test for caret-backslash-d-plus-dollar. -/
def isAllDigits (s : String) : Bool :=
  !s.data.isEmpty && s.data.all (·.isDigit)

/-- Position of the first occurrence of pat in s (character index), if any. -/
def chIndexOf (pat : List Char) : List Char → Option Nat
  | [] => if pat.isEmpty then some 0 else none
  | c :: rest =>
    if pat.isPrefixOf (c :: rest) then some 0
    else (chIndexOf pat rest).map (· + 1)

/-- Position of the first occurrence of pat in s, if any. -/
def substrPos (s pat : String) : Option Nat :=
  chIndexOf pat.data s.data

/-- Replace the first occurrence of pat in s with rep; models JavaScript
String#replace with a plain-string pattern. -/
def sReplaceFirst (s pat rep : String) : String :=
  match chIndexOf pat.data s.data with
  | none => s
  | some i => ⟨s.data.take i ++ rep.data ++ s.data.drop (i + pat.data.length)⟩

section AssocMaps

variable {β : Type}

/-- Lookup in an insertion-ordered association list; models JS Map#get
(none plays the role of undefined). -/
def mapGet (m : List (String × β)) (k : String) : Option β :=
  match m with
  | [] => none
  | (k₁, v₁) :: t => if k₁ = k then some v₁ else mapGet t k

/-- Update-or-append on an association list; models JS Map#set, which
overwrites in place when the key exists and appends otherwise. -/
def mapSet (m : List (String × β)) (k : String) (v : β) : List (String × β) :=
  match m with
  | [] => [(k, v)]
  | (k₁, v₁) :: t => if k₁ = k then (k, v) :: t else (k₁, v₁) :: mapSet t k v

/-- Remove a key from an association list; models JS Map#delete. -/
def mapDelete (m : List (String × β)) (k : String) : List (String × β) :=
  match m with
  | [] => []
  | (k₁, v₁) :: t => if k₁ = k then t else (k₁, v₁) :: mapDelete t k

/-- The keys of an association list, in insertion order; models spreading
JS Map#keys. -/
def mapKeys (m : List (String × β)) : List String :=
  m.map Prod.fst

/-- The values of an association list, in insertion order; models spreading
JS Map#values. -/
def mapVals (m : List (String × β)) : List β :=
  m.map Prod.snd

end AssocMaps

/-- JSON values as produced by JSON.parse. Numbers are modelled by their
integral part: the development only ever uses their truthiness and their
equality to concrete integers, never fractional values. -/
inductive JsonVal where
  | str (s : String)
  | num (n : Int)
  | bool (b : Bool)
  | null
  | arr (elems : List JsonVal)
  | obj (fields : List (String × JsonVal))

open JsonVal in
/-- Field access on a JSON value; none models the JS undefined that results
from accessing a property of a non-object or a missing property. -/
def jGet (v : JsonVal) (k : String) : Option JsonVal :=
  match v with
  | .obj fields => mapGet fields k
  | _ => none

/-- JavaScript truthiness of a JSON value. -/
def jTruthy : JsonVal → Bool
  | .str s => !s.isEmpty
  | .num n => n ≠ 0
  | .bool b => b
  | .null => false
  | .arr _ => true
  | .obj _ => true

/-- JS a || b on possibly-undefined JSON values: a when truthy, else b. -/
def jOr (a b : Option JsonVal) : Option JsonVal :=
  match a with
  | some v => if jTruthy v then some v else b
  | none => b

/-- Coerce a JSON value to the string the TS code stores in a string-typed
field; the sources only ever feed genuine strings (or absent fields) into
these positions. -/
def jAsStr : JsonVal → String
  | .str s => s
  | .num n => toString n
  | .bool b => if b then "true" else "false"
  | .null => "null"
  | .arr _ => ""
  | .obj _ => ""

/-- Coerce a JSON value to a number for numeric fields. -/
def jAsNum : JsonVal → Int
  | .num n => n
  | .bool b => if b then 1 else 0
  | _ => 0

/-- Coerce a JSON array of strings to a string list (note.tags). -/
def jAsStrList : JsonVal → List String
  | .arr xs => xs.map jAsStr
  | _ => []

def lbraceC : Char := Char.ofNat 123
def rbraceC : Char := Char.ofNat 125
def quoteC : Char := Char.ofNat 34
def backslashC : Char := Char.ofNat 92

/-- Skip JSON whitespace. -/
def jsonWsSkip (cs : List Char) : List Char :=
  cs.dropWhile (fun c => c = ' ' || c = '\t' || c = '\n' || c = '\r')

def hexVal (c : Char) : Option Nat :=
  if c.isDigit then some (c.toNat - 48)
  else if 'a' ≤ c && c ≤ 'f' then some (c.toNat - 87)
  else if 'A' ≤ c && c ≤ 'F' then some (c.toNat - 55)
  else none

/-- Parse the body of a JSON string literal after the opening quote,
returning the decoded characters and the input after the closing quote. -/
def parseJStr : Nat → List Char → Option (List Char × List Char)
  | 0, _ => none
  | _ + 1, [] => none
  | fuel + 1, c :: rest =>
    if c = quoteC then some ([], rest)
    else if c = backslashC then
      match rest with
      | [] => none
      | e :: rest₂ =>
        let cont (decoded : Char) : Option (List Char × List Char) :=
          (parseJStr fuel rest₂).map (fun r => (decoded :: r.1, r.2))
        if e = quoteC then cont quoteC
        else if e = backslashC then cont backslashC
        else if e = '/' then cont '/'
        else if e = 'b' then cont (Char.ofNat 8)
        else if e = 'f' then cont (Char.ofNat 12)
        else if e = 'n' then cont '\n'
        else if e = 'r' then cont '\r'
        else if e = 't' then cont '\t'
        else if e = 'u' then
          match rest₂ with
          | h1 :: h2 :: h3 :: h4 :: rest₃ =>
            match hexVal h1, hexVal h2, hexVal h3, hexVal h4 with
            | some a, some b, some c', some d =>
              (parseJStr fuel rest₃).map
                (fun r => (Char.ofNat (a * 4096 + b * 256 + c' * 16 + d) :: r.1, r.2))
            | _, _, _, _ => none
          | _ => none
        else none
    else if c.toNat < 32 then none
    else (parseJStr fuel rest).map (fun r => (c :: r.1, r.2))

/-- Parse the digits of a natural number. -/
def parseDigits (cs : List Char) : Option (Nat × List Char) :=
  let digs := cs.takeWhile Char.isDigit
  if digs.isEmpty then none
  else some (digs.foldl (fun acc c => acc * 10 + (c.toNat - 48)) 0, cs.drop digs.length)

/-- Parse a JSON number (sign, integer part, optional fraction/exponent);
the value retained is the integral part, which is all this development uses. -/
def parseJNum (cs : List Char) : Option (Int × List Char) :=
  let (neg, cs₁) : Bool × List Char :=
    match cs with
    | '-' :: t => (true, t)
    | _ => (false, cs)
  match parseDigits cs₁ with
  | none => none
  | some (n, cs₂) =>
    let cs₃ :=
      match cs₂ with
      | '.' :: t =>
        match parseDigits t with
        | some (_, r) => r
        | none => cs₂
      | _ => cs₂
    let consumedFrac := match cs₂ with
      | '.' :: t => (parseDigits t).isSome
      | _ => true
    if !consumedFrac && cs₃ = cs₂ then
      -- a bare dot with no digits after is a JSON syntax error
      match cs₂ with
      | '.' :: _ => none
      | _ => some (if neg then -(n : Int) else (n : Int), cs₃)
    else
    let cs₄ :=
      match cs₃ with
      | 'e' :: t | 'E' :: t =>
        let t₂ := match t with
          | '+' :: u => u
          | '-' :: u => u
          | _ => t
        match parseDigits t₂ with
        | some (_, r) => some r
        | none => none
      | _ => some cs₃
    match cs₄ with
    | none => none
    | some rest => some (if neg then -(n : Int) else (n : Int), rest)

mutual

/-- Fuel-indexed parser for a JSON value; models JSON.parse's grammar. -/
def parseJVal : Nat → List Char → Option (JsonVal × List Char)
  | 0, _ => none
  | fuel + 1, cs =>
    match jsonWsSkip cs with
    | [] => none
    | c :: rest =>
      if c = lbraceC then
        match jsonWsSkip rest with
        | c₂ :: rest₂ =>
          if c₂ = rbraceC then some (.obj [], rest₂)
          else parseJMembers fuel (c₂ :: rest₂) []
        | [] => none
      else if c = '[' then
        match jsonWsSkip rest with
        | c₂ :: rest₂ =>
          if c₂ = ']' then some (.arr [], rest₂)
          else parseJElems fuel (c₂ :: rest₂) []
        | [] => none
      else if c = quoteC then
        (parseJStr fuel rest).map (fun r => (.str ⟨r.1⟩, r.2))
      else if c = 't' then
        match rest with
        | 'r' :: 'u' :: 'e' :: rest₂ => some (.bool true, rest₂)
        | _ => none
      else if c = 'f' then
        match rest with
        | 'a' :: 'l' :: 's' :: 'e' :: rest₂ => some (.bool false, rest₂)
        | _ => none
      else if c = 'n' then
        match rest with
        | 'u' :: 'l' :: 'l' :: rest₂ => some (.null, rest₂)
        | _ => none
      else
        (parseJNum (c :: rest)).map (fun r => (.num r.1, r.2))

/-- Parse the members of a JSON object after at least one member is known
to be present. -/
def parseJMembers : Nat → List Char → List (String × JsonVal) →
    Option (JsonVal × List Char)
  | 0, _, _ => none
  | fuel + 1, cs, acc =>
    match jsonWsSkip cs with
    | c :: rest =>
      if c = quoteC then
        match parseJStr fuel rest with
        | none => none
        | some (key, rest₂) =>
          match jsonWsSkip rest₂ with
          | ':' :: rest₃ =>
            match parseJVal fuel rest₃ with
            | none => none
            | some (v, rest₄) =>
              match jsonWsSkip rest₄ with
              | ',' :: rest₅ => parseJMembers fuel rest₅ (acc ++ [(⟨key⟩, v)])
              | c₂ :: rest₅ =>
                if c₂ = rbraceC then some (.obj (acc ++ [(⟨key⟩, v)]), rest₅)
                else none
              | [] => none
          | _ => none
      else none
    | [] => none

/-- Parse the elements of a JSON array after at least one element is known
to be present. -/
def parseJElems : Nat → List Char → List JsonVal → Option (JsonVal × List Char)
  | 0, _, _ => none
  | fuel + 1, cs, acc =>
    match parseJVal fuel cs with
    | none => none
    | some (v, rest) =>
      match jsonWsSkip rest with
      | ',' :: rest₂ => parseJElems fuel rest₂ (acc ++ [v])
      | ']' :: rest₂ => some (.arr (acc ++ [v]), rest₂)
      | _ => none

end

/-- Model of JSON.parse: parse a complete JSON document, requiring only
trailing whitespace after the value. -/
def jsonParse (s : String) : Option JsonVal :=
  match parseJVal (s.length + 1) s.data with
  | none => none
  | some (v, rest) => if (jsonWsSkip rest).isEmpty then some v else none

/-- Generic regex-style scan: try a matcher at every start position, return
the first success (models how a JS regex engine searches an unanchored
pattern). -/
def scanFor (tryAt : List Char → Option α) : List Char → Option α
  | [] => none
  | c :: rest =>
    match tryAt (c :: rest) with
    | some r => some r
    | none => scanFor tryAt rest

/-- One attempt, at the head of the input, of the pattern
label[:：]backslash-s-star(.+) used by the parsers to pull titles and
authors out of free text. Mirrors the JS engine: the whitespace class may
cross newlines, the dot may not, and when greedy whitespace reaches the end
of input the engine backtracks until the final group can take one
non-newline whitespace character. -/
def labelCaptureHere (label : List Char) (cs : List Char) : Option (List Char) :=
  if label.isPrefixOf cs then
    match cs.drop label.length with
    | c :: rest =>
      if c = ':' || c = '：' then
        let rem := rest.dropWhile jsWs
        if !rem.isEmpty then some (rem.takeWhile (· ≠ '\n'))
        else
          match rest.reverse.dropWhile (· = '\n') with
          | [] => none
          | w :: _ => if jsWs w then some [w] else none
      else none
    | [] => none
  else none

/-- Model of content.match(label[:：]backslash-s-star(.+)) returning the
first capture. -/
def findLabelCapture (label : String) (content : String) : Option String :=
  (scanFor (labelCaptureHere label.data) content.data).map (fun cs => ⟨cs⟩)

/-- One attempt of the WeChat book-title pattern 《([^》]+)》 at the head of
the input. -/
def bracketTitleHere (cs : List Char) : Option (List Char) :=
  match cs with
  | c :: rest =>
    if c = '《' then
      let cap := rest.takeWhile (· ≠ '》')
      if cap.isEmpty then none
      else
        match rest.drop cap.length with
        | d :: _ => if d = '》' then some cap else none
        | [] => none
    else none
  | [] => none

/-- Model of content.match(《([^》]+)》) returning the first capture. -/
def findBracketTitle (content : String) : Option String :=
  (scanFor bracketTitleHere content.data).map (fun cs => ⟨cs⟩)

/-- Lazy capture up to the closing tag, as in openTag(.*?)closeTag.
When allowNl is false the dot cannot cross a newline (no s flag). Returns
the capture and the input following the closing tag. -/
def tagCaptureFrom (closeTag : List Char) (allowNl : Bool) :
    List Char → Option (List Char × List Char)
  | [] => none
  | c :: rest =>
    if closeTag.isPrefixOf (c :: rest) then some ([], (c :: rest).drop closeTag.length)
    else if !allowNl && c = '\n' then none
    else (tagCaptureFrom closeTag allowNl rest).map (fun r => (c :: r.1, r.2))

/-- One attempt of openTag(.*?)closeTag at the head of the input, with the
remaining input after the match. -/
def tagMatchHere (openTag closeTag : List Char) (allowNl : Bool) (cs : List Char) :
    Option (List Char × List Char) :=
  if openTag.isPrefixOf cs then tagCaptureFrom closeTag allowNl (cs.drop openTag.length)
  else none

/-- Model of content.match(openTag(.*?)closeTag) without the g flag:
first capture anywhere in the input. -/
def findTagCapture (openTag closeTag : String) (allowNl : Bool)
    (content : String) : Option String :=
  (scanFor (fun cs => tagMatchHere openTag.data closeTag.data allowNl cs) content.data).map
    (fun r => (⟨r.1⟩ : String))

/-- All non-overlapping captures of openTag(.*?)closeTag with the g flag,
scanning left to right and resuming after each match. -/
def findAllTagCaptures (openTag closeTag : List Char) (allowNl : Bool) :
    Nat → List Char → List (List Char)
  | 0, _ => []
  | fuel + 1, cs =>
    match scanFor (fun l => tagMatchHere openTag closeTag allowNl l) cs with
    | none => []
    | some (cap, rest) => cap :: findAllTagCaptures openTag closeTag allowNl fuel rest

/-- Model of content.match(/<note>(.*?)<\/note>/gs): the list of full match
strings (tags included). -/
def findAllNotesBlocks (content : String) : List String :=
  (findAllTagCaptures "<note>".data "</note>".data true (content.length + 1) content.data).map
    (fun cap => "<note>" ++ (⟨cap⟩ : String) ++ "</note>")

/-- Take one or two digits greedily; the date patterns that use the 1-2
quantifier always follow it with a non-digit separator, so the regex
backtracking alternative of taking a single digit can never rescue a failed
two-digit attempt and the greedy take is exact. -/
def takeDigitsUpTo2 (cs : List Char) : Option (List Char × List Char) :=
  let t := (cs.takeWhile (·.isDigit)).take 2
  if t.isEmpty then none else some (t, cs.drop t.length)

/-- Take exactly n digits. -/
def takeExactDigits (n : Nat) (cs : List Char) : Option (List Char × List Char) :=
  let t := cs.take n
  if t.length = n && t.all (·.isDigit) then some (t, cs.drop n) else none

/-- Require one of the given separator characters. -/
def takeSep (seps : List Char) (cs : List Char) : Option (Char × List Char) :=
  match cs with
  | c :: rest => if seps.contains c then some (c, rest) else none
  | [] => none

/-- Date pattern 1 at the head: 4 digits, 年 or -, 1-2 digits, 月 or -,
1-2 digits, optional 日. -/
def datePat1Here (cs : List Char) : Option (List Char) := do
  let (d1, r1) ← takeExactDigits 4 cs
  let (s1, r2) ← takeSep ['年', '-'] r1
  let (d2, r3) ← takeDigitsUpTo2 r2
  let (s2, r4) ← takeSep ['月', '-'] r3
  let (d3, r5) ← takeDigitsUpTo2 r4
  match r5 with
  | '日' :: _ => some (d1 ++ [s1] ++ d2 ++ [s2] ++ d3 ++ ['日'])
  | _ => some (d1 ++ [s1] ++ d2 ++ [s2] ++ d3)

/-- Date pattern 2 at the head: 1-2 digits, 月 or -, 1-2 digits,
optional 日. -/
def datePat2Here (cs : List Char) : Option (List Char) := do
  let (d1, r1) ← takeDigitsUpTo2 cs
  let (s1, r2) ← takeSep ['月', '-'] r1
  let (d2, r3) ← takeDigitsUpTo2 r2
  match r3 with
  | '日' :: _ => some (d1 ++ [s1] ++ d2 ++ ['日'])
  | _ => some (d1 ++ [s1] ++ d2)

/-- Date pattern 3 at the head: 4 digits - 1-2 digits - 1-2 digits. -/
def datePat3Here (cs : List Char) : Option (List Char) := do
  let (d1, r1) ← takeExactDigits 4 cs
  let (_, r2) ← takeSep ['-'] r1
  let (d2, r3) ← takeDigitsUpTo2 r2
  let (_, r4) ← takeSep ['-'] r3
  let (d3, _) ← takeDigitsUpTo2 r4
  some (d1 ++ ['-'] ++ d2 ++ ['-'] ++ d3)

/-- Date pattern 4 at the head: 1-2 digits / 1-2 digits / 4 digits. -/
def datePat4Here (cs : List Char) : Option (List Char) := do
  let (d1, r1) ← takeDigitsUpTo2 cs
  let (_, r2) ← takeSep ['/'] r1
  let (d2, r3) ← takeDigitsUpTo2 r2
  let (_, r4) ← takeSep ['/'] r3
  let (d3, _) ← takeExactDigits 4 r4
  some (d1 ++ ['/'] ++ d2 ++ ['/'] ++ d3)

/-- The ambient JavaScript effects a parse run observes: Date.now (as a
millisecond count), the Date constructor applied to a matched date string,
and Date#toLocaleString used by the renderer. -/
structure JsEnv where
  now : Nat
  parseDate : String → Nat
  locale : Nat → String

/-- Model of WeChatParser.extractDate: try the four date regexes in order
and construct a Date from the first match found anywhere in the text. -/
def extractDate (env : JsEnv) (text : String) : Option Nat :=
  match scanFor datePat1Here text.data with
  | some m => some (env.parseDate ⟨m⟩)
  | none =>
    match scanFor datePat2Here text.data with
    | some m => some (env.parseDate ⟨m⟩)
    | none =>
      match scanFor datePat3Here text.data with
      | some m => some (env.parseDate ⟨m⟩)
      | none =>
        match scanFor datePat4Here text.data with
        | some m => some (env.parseDate ⟨m⟩)
        | none => none

/-- Model of JS parseInt on the strings the XML path feeds it: leading
integer value (the NaN outcome, which no claim observes, is collapsed
to 0). -/
def jsParseInt (s : String) : Int :=
  let cs := s.data.dropWhile jsWs
  match cs with
  | '-' :: rest =>
    match parseDigits rest with
    | some (n, _) => -(n : Int)
    | none => 0
  | _ =>
    match parseDigits cs with
    | some (n, _) => (n : Int)
    | none => 0

inductive NoteType where
  | highlight
  | note
  | bookmark
deriving DecidableEq, Repr

inductive NoteSource where
  | duokan
  | wechat
  | manual
  | ocr
deriving DecidableEq, Repr

/-- The BookNote record from src/shared/types/notes.ts. Dates are
millisecond counts. -/
structure BookNote where
  id : String
  bookTitle : String
  bookAuthor : Option String := none
  noteType : NoteType
  content : String
  position : Option Int := none
  location : Option String := none
  chapter : Option String := none
  createdAt : Nat
  updatedAt : Option Nat := none
  tags : Option (List String) := none
  color : Option String := none
  source : NoteSource
deriving DecidableEq, Repr

/-- The BookMetadata record from src/shared/types/notes.ts. -/
structure BookMetadata where
  title : String
  author : Option String := none
  isbn : Option String := none
  coverImage : Option String := none
  totalNotes : Int
  lastSyncDate : Option Nat := none
deriving DecidableEq, Repr

/-- The rawData field of ParsedBookData (typed any in the source): either
absent, the raw input text, or the parsed JSON document. -/
inductive RawData where
  | rawNone
  | rawText (s : String)
  | rawJson (v : JsonVal)

/-- The ParsedBookData record from src/shared/types/notes.ts. -/
structure ParsedBookData where
  metadata : BookMetadata
  notes : List BookNote
  rawData : RawData := .rawNone

/-- First truthy value in a list of possibly-undefined JS values; models a
chain of JS || operators whose last alternative is supplied separately. -/
def firstTruthy : List (Option JsonVal) → Option JsonVal
  | [] => none
  | a :: rest =>
    match a with
    | some v => if jTruthy v then some v else firstTruthy rest
    | none => firstTruthy rest

/-- A JS || chain of JSON values ending in a string literal default. -/
def jStrChain (alts : List (Option JsonVal)) (dflt : String) : String :=
  jAsStr ((firstTruthy alts).getD (.str dflt))

/-- A JS string-or-default on an optional regex capture, as in
capture || 'Unknown Book' (an empty capture is falsy). -/
def strOr (a : Option String) (dflt : String) : String :=
  match a with
  | some s => if s.isEmpty then dflt else s
  | none => dflt

/-- Model of new Date(x) for a JSON value x. -/
def jDateOf (env : JsEnv) : JsonVal → Nat
  | .num n => n.toNat
  | .str s => env.parseDate s
  | v => env.parseDate (jAsStr v)

/-- DuokanParser.isValidJSON: attempt a JSON parse. -/
def duokanIsValidJSON (s : String) : Bool :=
  (jsonParse s).isSome

/-- DuokanParser.isValidXML. -/
def duokanIsValidXML (s : String) : Bool :=
  sInc s "<?xml" || sInc s "<notes>"

/-- DuokanParser.validate. -/
def duokanValidate (s : String) : Bool :=
  sInc s "duokan" || sInc s "多看" || sInc s "读书笔记" ||
    duokanIsValidJSON s || duokanIsValidXML s

/-- DuokanParser.mapNoteType. -/
def duokanMapNoteType (t : String) : NoteType :=
  if t = "highlight" then .highlight
  else if t = "note" then .note
  else if t = "bookmark" then .bookmark
  else if t = "高亮" then .highlight
  else if t = "笔记" then .note
  else if t = "书签" then .bookmark
  else .highlight

/-- The empty placeholder bundle DuokanParser.parseJSON returns from its
catch branch. -/
def duokanEmptyBundle (env : JsEnv) (content : String) : ParsedBookData :=
  { metadata :=
      { title := "Unknown Book"
        author := some ""
        totalNotes := 0
        lastSyncDate := some env.now }
    notes := []
    rawData := .rawText content }

/-- One annotation built by the DuokanParser JSON path from an element of
the notes array. -/
def duokanNoteOfJson (env : JsEnv) (data : JsonVal) (idx : Nat) (note : JsonVal) :
    BookNote :=
  { id := "duokan_" ++ toString idx ++ "_" ++ toString env.now
    bookTitle :=
      jStrChain [jGet data "bookTitle", jGet note "bookTitle"] "Unknown Book"
    bookAuthor := (jOr (jGet data "author") (jGet note "author")).map jAsStr
    noteType := duokanMapNoteType (jStrChain [jGet note "type"] "highlight")
    content := jStrChain [jGet note "content", jGet note "text"] ""
    position :=
      some (jAsNum ((firstTruthy [jGet note "position", jGet note "location"]).getD
        (.num idx)))
    location := some (jStrChain [jGet note "location", jGet note "page"] "")
    chapter := (jOr (jGet note "chapter") (jGet note "section")).map jAsStr
    createdAt :=
      match firstTruthy [jGet note "createdAt", jGet note "date"] with
      | some v => jDateOf env v
      | none => env.now
    color := (jGet note "color").map jAsStr
    source := .duokan
    tags := some (jAsStrList ((firstTruthy [jGet note "tags"]).getD (.arr []))) }

/-- DuokanParser.parseJSON. -/
def duokanParseJSON (env : JsEnv) (content : String) : ParsedBookData :=
  match jsonParse content with
  | none => duokanEmptyBundle env content
  | some data =>
    let notes : List BookNote :=
      match jGet data "notes" with
      | some (.arr xs) => xs.enum.map (fun p => duokanNoteOfJson env data p.1 p.2)
      | _ => []
    { metadata :=
        { title := jStrChain [jGet data "bookTitle", jGet data "title"] "Unknown Book"
          author := (jGet data "author").map jAsStr
          totalNotes := notes.length
          lastSyncDate := some env.now }
      notes := notes
      rawData := .rawJson data }

/-- One annotation built by the DuokanParser XML path from a note block. -/
def duokanNoteOfXml (env : JsEnv) (titleMatch authorMatch : Option String)
    (idx : Nat) (block : String) (contentCap : String) : BookNote :=
  { id := "duokan_xml_" ++ toString idx ++ "_" ++ toString env.now
    bookTitle := strOr titleMatch "Unknown Book"
    bookAuthor := authorMatch
    noteType := .highlight
    content := contentCap
    position :=
      match findTagCapture "<position>" "</position>" false block with
      | some p => some (jsParseInt p)
      | none => some idx
    chapter := findTagCapture "<chapter>" "</chapter>" false block
    createdAt :=
      match findTagCapture "<date>" "</date>" false block with
      | some d => env.parseDate d
      | none => env.now
    source := .duokan }

/-- DuokanParser.parseXML. -/
def duokanParseXML (env : JsEnv) (content : String) : ParsedBookData :=
  let titleMatch := findTagCapture "<bookTitle>" "</bookTitle>" false content
  let authorMatch := findTagCapture "<author>" "</author>" false content
  let blocks := findAllNotesBlocks content
  let notes : List BookNote :=
    (blocks.enum.filterMap (fun p =>
      (findTagCapture "<content>" "</content>" false p.2).map
        (fun cap => duokanNoteOfXml env titleMatch authorMatch p.1 p.2 cap)))
  { metadata :=
      { title := strOr titleMatch "Unknown Book"
        author := authorMatch
        totalNotes := notes.length
        lastSyncDate := some env.now }
    notes := notes
    rawData := .rawText content }

/-- The per-line skip/keep decision of DuokanParser.parsePlainText: the
trimmed line is kept as a highlight's content when it escapes every skip
condition and passes the length and marker filters. -/
def duokanLineKept (line : String) : Bool :=
  if sInc line "书名" || sInc line "作者" then false
  else if sStarts line "第" && sInc line "章" then false
  else if isAllDigits line then false
  else
    decide (line.length > 5) && !sInc line "书名" && !sInc line "作者" &&
      !sInc line "读书笔记" && !(sStarts line "第" && sInc line "章") &&
      !isAllDigits line

/-- The forEach accumulation of DuokanParser.parsePlainText: threads the
running note list and the note index counter. -/
def duokanPlainFold (env : JsEnv) (bookTitle author : String) :
    List String → List BookNote × Nat → List BookNote × Nat
  | [], acc => acc
  | rawLine :: rest, (notes, noteIndex) =>
    let line := jsTrim rawLine
    if duokanLineKept line then
      duokanPlainFold env bookTitle author rest
        (notes ++
          [{ id := "duokan_txt_" ++ toString noteIndex ++ "_" ++ toString env.now
             bookTitle := bookTitle
             bookAuthor := some author
             noteType := .highlight
             content := line
             position := some noteIndex
             createdAt := env.now
             source := .duokan }], noteIndex + 1)
    else duokanPlainFold env bookTitle author rest (notes, noteIndex)

/-- DuokanParser.parsePlainText. -/
def duokanParsePlainText (env : JsEnv) (content : String) : ParsedBookData :=
  let lines := (sSplit content '\n').filter (fun l => !(jsTrim l).isEmpty)
  let bookTitle :=
    match findLabelCapture "书名" content with
    | some cap => jsTrim cap
    | none => "Unknown Book"
  let author :=
    match findLabelCapture "作者" content with
    | some cap => jsTrim cap
    | none => ""
  let notes := (duokanPlainFold env bookTitle author lines ([], 0)).1
  { metadata :=
      { title := bookTitle
        author := some author
        totalNotes := notes.length
        lastSyncDate := some env.now }
    notes := notes
    rawData := .rawText content }

/-- DuokanParser.parse: sub-format dispatch. -/
def duokanParse (env : JsEnv) (content : String) : ParsedBookData :=
  if duokanIsValidJSON content then duokanParseJSON env content
  else if duokanIsValidXML content then duokanParseXML env content
  else duokanParsePlainText env content

/-- WeChatParser.isValidWeChatFormat. -/
def wechatIsValidFormat (content : String) : Bool :=
  sInc content "微信读书" &&
    (sInc content "划线" || sInc content "想法" || sInc content "章节")

/-- WeChatParser.validate. -/
def wechatValidate (content : String) : Bool :=
  sInc content "微信读书" || sInc content "WeChat" || sInc content "读书笔记" ||
    wechatIsValidFormat content

/-- WeChatParser.mapNoteType. -/
def wechatMapNoteType (t : String) : NoteType :=
  if t = "highlight" then .highlight
  else if t = "note" then .note
  else if t = "bookmark" then .bookmark
  else if t = "划线" then .highlight
  else if t = "想法" then .note
  else if t = "书签" then .bookmark
  else if t = "高亮" then .highlight
  else .highlight

/-- One annotation pushed by the parseWeChatFormat loop. -/
def wechatFmtPush (env : JsEnv) (bookTitle author currentChapter line : String)
    (pos noteIndex : Nat) (t : NoteType) (contentLine : String)
    (loc : Option String) : BookNote :=
  { id := "wechat_" ++ toString noteIndex ++ "_" ++ toString env.now
    bookTitle := bookTitle
    bookAuthor := some author
    noteType := t
    content := contentLine
    location := loc
    chapter := some currentChapter
    position := some (pos : Int)
    createdAt := (extractDate env line).getD env.now
    source := .wechat }

/-- The 划线 test of the parseWeChatFormat loop body, threading the
(notes, noteIndex, i) state: on a hit, the next line is consumed as the
highlight's content and i advances. -/
def wechatFmtStep1 (env : JsEnv) (bookTitle author currentChapter line : String)
    (lines : List String) (st : List BookNote × Nat × Nat) :
    List BookNote × Nat × Nat :=
  if sInc line "划线" then
    match lines[st.2.2 + 1]? with
    | some nl₀ =>
      let nextLine := jsTrim nl₀
      if !nextLine.isEmpty && !sInc nextLine "想法" && !sInc nextLine "章节" then
        (st.1 ++ [wechatFmtPush env bookTitle author currentChapter line st.2.2 st.2.1
          .highlight nextLine none], st.2.1 + 1, st.2.2 + 1)
      else st
    | none => st
  else st

/-- The 想法 test of the parseWeChatFormat loop body (an independent if in
the source, so it sees the state already advanced by the 划线 test). -/
def wechatFmtStep2 (env : JsEnv) (bookTitle author currentChapter line : String)
    (lines : List String) (st : List BookNote × Nat × Nat) :
    List BookNote × Nat × Nat :=
  if sInc line "想法" then
    match lines[st.2.2 + 1]? with
    | some nl₀ =>
      let nextLine := jsTrim nl₀
      if !nextLine.isEmpty && !sInc nextLine "划线" && !sInc nextLine "章节" then
        (st.1 ++ [wechatFmtPush env bookTitle author currentChapter line st.2.2 st.2.1
          .note nextLine none], st.2.1 + 1, st.2.2 + 1)
      else st
    | none => st
  else st

/-- The 书签/位置 test of the parseWeChatFormat loop body. -/
def wechatFmtStep3 (env : JsEnv) (bookTitle author currentChapter line : String)
    (lines : List String) (st : List BookNote × Nat × Nat) :
    List BookNote × Nat × Nat :=
  if sInc line "书签" || sInc line "位置" then
    match lines[st.2.2 + 1]? with
    | some nl₀ =>
      let nextLine := jsTrim nl₀
      if !nextLine.isEmpty then
        (st.1 ++ [wechatFmtPush env bookTitle author currentChapter line st.2.2 st.2.1
          .bookmark nextLine (some line)], st.2.1 + 1, st.2.2 + 1)
      else st
    | none => st
  else st

/-- The parseWeChatFormat for-loop. The loop variable i is mutated inside
the body after a push, and the three marker tests are independent ifs over
the same (captured) line, so one iteration can emit up to three
annotations while reading successive lookahead lines; the state
(notes, noteIndex, i) is threaded through the three tests exactly as in
the source. Fuel bounds the iteration count; the loop advances i by at
least one per iteration, so any fuel of at least the line count is exact. -/
def wechatFmtLoop (env : JsEnv) (bookTitle author : String) (lines : List String) :
    Nat → Nat → String → List BookNote → Nat → List BookNote
  | 0, _, _, notes, _ => notes
  | fuel + 1, i, currentChapter, notes, noteIndex =>
    match lines[i]? with
    | none => notes
    | some rawLine =>
      let line := jsTrim rawLine
      if sInc line "章节" || (sInc line "第" && sInc line "章") then
        wechatFmtLoop env bookTitle author lines fuel (i + 1) line notes noteIndex
      else
        let st := wechatFmtStep3 env bookTitle author currentChapter line lines
          (wechatFmtStep2 env bookTitle author currentChapter line lines
            (wechatFmtStep1 env bookTitle author currentChapter line lines
              (notes, noteIndex, i)))
        wechatFmtLoop env bookTitle author lines fuel (st.2.2 + 1) currentChapter
          st.1 st.2.1

/-- WeChatParser.parseWeChatFormat. -/
def wechatParseWeChatFormat (env : JsEnv) (content : String) : ParsedBookData :=
  let lines := (sSplit content '\n').filter (fun l => !(jsTrim l).isEmpty)
  let bookTitle := strOr (findBracketTitle content) "Unknown Book"
  let author :=
    match findLabelCapture "作者" content with
    | some cap => jsTrim cap
    | none => ""
  let notes := wechatFmtLoop env bookTitle author lines (lines.length + 1) 0 "" [] 0
  { metadata :=
      { title := bookTitle
        author := some author
        totalNotes := notes.length
        lastSyncDate := some env.now }
    notes := notes
    rawData := .rawText content }

/-- One annotation built by the WeChatParser JSON path. -/
def wechatNoteOfJson (env : JsEnv) (data : JsonVal) (idx : Nat) (note : JsonVal) :
    BookNote :=
  { id := "wechat_" ++ toString idx ++ "_" ++ toString env.now
    bookTitle :=
      jStrChain [jGet data "bookTitle", jGet note "bookTitle"] "Unknown Book"
    bookAuthor := (jOr (jGet data "author") (jGet note "author")).map jAsStr
    noteType := wechatMapNoteType (jStrChain [jGet note "type"] "highlight")
    content := jStrChain [jGet note "content", jGet note "text"] ""
    position :=
      some (jAsNum ((firstTruthy [jGet note "position", jGet note "location"]).getD
        (.num idx)))
    location := some (jStrChain [jGet note "location", jGet note "page"] "")
    chapter := (jOr (jGet note "chapter") (jGet note "section")).map jAsStr
    createdAt :=
      match firstTruthy [jGet note "createdAt", jGet note "date"] with
      | some v => jDateOf env v
      | none => env.now
    color := (jGet note "color").map jAsStr
    source := .wechat
    tags := some (jAsStrList ((firstTruthy [jGet note "tags"]).getD (.arr []))) }

/-- WeChatParser.parseJSON, applied to the already-parsed document (the
dispatcher only reaches it when JSON.parse succeeded, so the source's
unguarded re-parse cannot throw). -/
def wechatParseJSON (env : JsEnv) (data : JsonVal) : ParsedBookData :=
  let notes : List BookNote :=
    match jGet data "notes" with
    | some (.arr xs) => xs.enum.map (fun p => wechatNoteOfJson env data p.1 p.2)
    | _ => []
  { metadata :=
      { title := jStrChain [jGet data "bookTitle", jGet data "title"] "Unknown Book"
        author := (jGet data "author").map jAsStr
        totalNotes := notes.length
        lastSyncDate := some env.now }
    notes := notes
    rawData := .rawJson data }

/-- The character loop of parseCSV that honors double quotes mid-line:
state is (current column characters, inQuotes, emitted columns). -/
def csvSplitFold : List Char → List Char × Bool × List String → List String
  | [], (current, _, cols) => cols ++ [jsTrim ⟨current⟩]
  | c :: rest, (current, inQuotes, cols) =>
    if c = quoteC then csvSplitFold rest (current, !inQuotes, cols)
    else if c = ',' && !inQuotes then
      csvSplitFold rest ([], inQuotes, cols ++ [jsTrim ⟨current⟩])
    else csvSplitFold rest (current ++ [c], inQuotes, cols)

/-- Model of the per-row column extraction of WeChatParser.parseCSV. -/
def csvColumns (line : String) : List String :=
  csvSplitFold line.data ([], false, [])

/-- Model of columns[x].replace with the edge-quote-stripping regex: one
leading and one trailing double quote are removed. -/
def stripEdgeQuotes (s : String) : String :=
  let afterLead := if s.data.head? = some quoteC then s.data.tail else s.data
  if afterLead.getLast? = some quoteC then ⟨afterLead.dropLast⟩ else ⟨afterLead⟩

/-- One row of WeChatParser.parseCSV. Indexing columns at a header-derived
position beyond the row's length is the JS undefined, on which the
subsequent .replace call throws: that is the none outcome. -/
def wechatCsvRow (env : JsEnv) (headers : List String) (i : Nat) (line : String) :
    Option (List BookNote) :=
  let columns := csvColumns line
  if columns.length ≥ 2 then
    let contentIndex := headers.findIdx? (fun h => sInc h "内容" || sInc h "content")
    let chapterIndex := headers.findIdx? (fun h => sInc h "章节" || sInc h "chapter")
    let typeIndex := headers.findIdx? (fun h => sInc h "类型" || sInc h "type")
    match columns[contentIndex.getD 0]? with
    | none => none
    | some c₀ =>
      let noteContent := stripEdgeQuotes c₀
      match
        (match chapterIndex with
         | some ci => (columns[ci]?).map stripEdgeQuotes
         | none => some "") with
      | none => none
      | some chapter =>
        match
          (match typeIndex with
           | some ti => (columns[ti]?).map (fun s => wechatMapNoteType (stripEdgeQuotes s))
           | none => some .highlight) with
        | none => none
        | some noteType =>
          if !noteContent.isEmpty then
            some [{ id := "wechat_csv_" ++ toString i ++ "_" ++ toString env.now
                    bookTitle := "Unknown Book"
                    bookAuthor := some ""
                    noteType := noteType
                    content := noteContent
                    chapter := some chapter
                    position := some (i : Int)
                    createdAt := env.now
                    source := .wechat }]
          else some []
  else some []

/-- The row loop of WeChatParser.parseCSV over the enumerated data lines;
a thrown row aborts the whole parse. -/
def wechatCsvRows (env : JsEnv) (headers : List String) :
    List (Nat × String) → Option (List BookNote)
  | [] => some []
  | (i, line) :: rest =>
    match wechatCsvRow env headers i line with
    | none => none
    | some l =>
      match wechatCsvRows env headers rest with
      | none => none
      | some ls => some (l ++ ls)

/-- WeChatParser.parseCSV; none models the uncaught TypeError thrown when a
data row is shorter than a header-derived column index. -/
def wechatParseCSV (env : JsEnv) (content : String) : Option ParsedBookData :=
  let lines := (sSplit content '\n').filter (fun l => !(jsTrim l).isEmpty)
  match lines.head? with
  | none => none
  | some first =>
    let headers := (sSplit first ',').map jsTrim
    let hasHeaders := headers.any (fun h =>
      sInc h "内容" || sInc h "content" || sInc h "章节" || sInc h "chapter")
    let startIndex := if hasHeaders then 1 else 0
    let rows := lines.enum.drop startIndex
    match wechatCsvRows env headers rows with
    | none => none
    | some notes =>
      some
        { metadata :=
            { title := "Unknown Book"
              author := some ""
              totalNotes := notes.length
              lastSyncDate := some env.now }
          notes := notes
          rawData := .rawText content }

/-- The while-loop of WeChatParser.parsePlainText: a line-indexed scan with
explicit continues; fuel bounds the iteration count (each iteration
advances i by one or two, so line count plus one is always enough). -/
def wechatPlainLoop (env : JsEnv) (bookTitle author : String) (lines : List String) :
    Nat → Nat → String → List BookNote → Nat → List BookNote
  | 0, _, _, notes, _ => notes
  | fuel + 1, i, currentChapter, notes, noteIndex =>
    match lines[i]? with
    | none => notes
    | some rawLine =>
      let line := jsTrim rawLine
      let mkNote (t : NoteType) (contentStr : String) : BookNote :=
        { id := "wechat_txt_" ++ toString noteIndex ++ "_" ++ toString env.now
          bookTitle := bookTitle
          bookAuthor := some author
          noteType := t
          content := contentStr
          chapter := some currentChapter
          position := some (i : Int)
          createdAt := env.now
          source := .wechat }
      if sInc line "章节：" || (sStarts line "第" && sInc line "章") then
        wechatPlainLoop env bookTitle author lines fuel (i + 1)
          (sReplaceFirst line "章节：" "") notes noteIndex
      else if sInc line "划线：" then
        let c := jsTrim (sReplaceFirst line "划线：" "")
        if !c.isEmpty then
          wechatPlainLoop env bookTitle author lines fuel (i + 1) currentChapter
            (notes ++ [mkNote .highlight c]) (noteIndex + 1)
        else
          wechatPlainLoop env bookTitle author lines fuel (i + 1) currentChapter notes
            noteIndex
      else if sInc line "想法：" then
        let c := jsTrim (sReplaceFirst line "想法：" "")
        if !c.isEmpty then
          wechatPlainLoop env bookTitle author lines fuel (i + 1) currentChapter
            (notes ++ [mkNote .note c]) (noteIndex + 1)
        else
          wechatPlainLoop env bookTitle author lines fuel (i + 1) currentChapter notes
            noteIndex
      else if sInc line "书签：" then
        let c := jsTrim (sReplaceFirst line "书签：" "")
        if !c.isEmpty then
          wechatPlainLoop env bookTitle author lines fuel (i + 1) currentChapter
            (notes ++ [mkNote .bookmark c]) (noteIndex + 1)
        else
          wechatPlainLoop env bookTitle author lines fuel (i + 1) currentChapter notes
            noteIndex
      else
        if sInc line "划线" || sInc line "想法" || sInc line "书签" then
          match lines[i + 1]? with
          | some nl₀ =>
            let nextLine := jsTrim nl₀
            if !nextLine.isEmpty && !sInc nextLine "《" && !sInc nextLine "作者" &&
                !sInc nextLine "章节" && !sInc nextLine "划线" &&
                !sInc nextLine "想法" && !sInc nextLine "书签" &&
                decide (nextLine.length > 5) then
              let t : NoteType :=
                if sInc line "划线" then .highlight
                else if sInc line "想法" then .note
                else .bookmark
              wechatPlainLoop env bookTitle author lines fuel (i + 2) currentChapter
                (notes ++ [mkNote t nextLine]) (noteIndex + 1)
            else
              wechatPlainLoop env bookTitle author lines fuel (i + 1) currentChapter
                notes noteIndex
          | none =>
            wechatPlainLoop env bookTitle author lines fuel (i + 1) currentChapter notes
              noteIndex
        else
          wechatPlainLoop env bookTitle author lines fuel (i + 1) currentChapter notes
            noteIndex

/-- WeChatParser.parsePlainText. -/
def wechatParsePlainText (env : JsEnv) (content : String) : ParsedBookData :=
  let lines := (sSplit content '\n').filter (fun l => !(jsTrim l).isEmpty)
  let bookTitle := strOr (findBracketTitle content) "Unknown Book"
  let author :=
    match findLabelCapture "作者" content with
    | some cap => jsTrim cap
    | none => ""
  let notes := wechatPlainLoop env bookTitle author lines (lines.length + 1) 0 "" [] 0
  { metadata :=
      { title := bookTitle
        author := some author
        totalNotes := notes.length
        lastSyncDate := some env.now }
    notes := notes
    rawData := .rawText content }

/-- WeChatParser.parse: sub-format dispatch; none models a thrown
exception (reachable only through the CSV path). -/
def wechatParse (env : JsEnv) (content : String) : Option ParsedBookData :=
  if sInc content "微信读书" && sInc content "想法" then
    some (wechatParseWeChatFormat env content)
  else
    match jsonParse content with
    | some data => some (wechatParseJSON env data)
    | none =>
      if sInc content "," then wechatParseCSV env content
      else some (wechatParsePlainText env content)

/-- The in-memory state of NotesManager: the flat annotation index
(notes, id to BookNote) and the book index (books, title to bundle), both
insertion-ordered JS Maps. -/
structure Store where
  notes : List (String × BookNote) := []
  books : List (String × ParsedBookData) := []

/-- The k-th candidate of the collision-suffix loop: the base name itself,
then base_1, base_2, and so on. -/
def suffixed (base : String) : Nat → String
  | 0 => base
  | k + 1 => base ++ "_" ++ toString (k + 1)

/-- The while-loop of storeParsedData that finds a collision-free key by
appending numeric suffixes. The loop checks one candidate per step; among
any (size of key set) + 1 distinct candidates one is unused, so that much
fuel always suffices and the fuel-exhausted fallback is unreachable. -/
def resolveKeyAux (ks : List String) (base : String) : Nat → Nat → String
  | 0, counter => suffixed base counter
  | fuel + 1, counter =>
    if suffixed base counter ∈ ks then resolveKeyAux ks base fuel (counter + 1)
    else suffixed base counter

/-- Collision-free key resolution against an existing key list. -/
def resolveKey (ks : List String) (base : String) : String :=
  resolveKeyAux ks base (ks.length + 1) 0

/-- Replace the first list element satisfying the predicate (the
findIndex-then-assign idiom of storeParsedData and updateNote); no
element is replaced when none matches (findIndex returning -1). -/
def replaceFirst (p : α → Bool) (v : α) : List α → List α
  | [] => []
  | a :: rest => if p a then v :: rest else a :: replaceFirst p v rest

/-- The forEach of storeParsedData over the incoming annotations: resolve
each annotation's id against the flat index, insert the renamed annotation
into the flat index, and write it back over the first bundle position whose
id equals the original id. The iteration reads the original (stamped)
annotation at each position: the source iterates the same array it mutates,
but a write-back always lands at an index no later than the current one, so
the elements seen by the loop are the original ones. -/
def idLoop (flat : List (String × BookNote)) (bnotes : List BookNote) :
    List BookNote → List (String × BookNote) × List BookNote
  | [] => (flat, bnotes)
  | n :: rest =>
    let nid := resolveKey (mapKeys flat) n.id
    let updated := { n with id := nid }
    let flat' := mapSet flat nid updated
    let bnotes' := replaceFirst (fun m => m.id = n.id) updated bnotes
    idLoop flat' bnotes' rest

/-- NotesManager.storeParsedData: resolve a collision-free title, stamp it
on every incoming annotation, store the bundle, then run the id loop and
write the final annotation list back to the bundle. -/
def storeParsedData (s : Store) (data : ParsedBookData) : Store :=
  let bookTitle := resolveKey (mapKeys s.books) data.metadata.title
  let stamped := data.notes.map (fun n => { n with bookTitle := bookTitle })
  let updatedData : ParsedBookData :=
    { data with
      metadata := { data.metadata with title := bookTitle }
      notes := stamped }
  let books₁ := mapSet s.books bookTitle updatedData
  let r := idLoop s.notes stamped stamped
  { notes := r.1
    books := mapSet books₁ bookTitle { updatedData with notes := r.2 } }

/-- NotesManager.getNoteById. -/
def getNoteById (s : Store) (noteId : String) : Option BookNote :=
  mapGet s.notes noteId

/-- NotesManager.getAllNotes. -/
def getAllNotes (s : Store) : List BookNote :=
  mapVals s.notes

/-- NotesManager.getBook. -/
def getBook (s : Store) (bookTitle : String) : Option ParsedBookData :=
  mapGet s.books bookTitle

/-- NotesManager.getNotesByBook. -/
def getNotesByBook (s : Store) (bookTitle : String) : List BookNote :=
  match mapGet s.books bookTitle with
  | some book => book.notes
  | none => []

/-- The Partial(BookNote) argument of updateNote: absent fields leave the
annotation's fields unchanged under the object spread. -/
structure NoteUpdates where
  id : Option String := none
  bookTitle : Option String := none
  bookAuthor : Option (Option String) := none
  noteType : Option NoteType := none
  content : Option String := none
  position : Option (Option Int) := none
  location : Option (Option String) := none
  chapter : Option (Option String) := none
  createdAt : Option Nat := none
  updatedAt : Option (Option Nat) := none
  tags : Option (Option (List String)) := none
  color : Option (Option String) := none
  source : Option NoteSource := none

/-- The spread merge of updateNote, before updatedAt is stamped. -/
def applyUpdates (n : BookNote) (u : NoteUpdates) : BookNote :=
  { id := u.id.getD n.id
    bookTitle := u.bookTitle.getD n.bookTitle
    bookAuthor := u.bookAuthor.getD n.bookAuthor
    noteType := u.noteType.getD n.noteType
    content := u.content.getD n.content
    position := u.position.getD n.position
    location := u.location.getD n.location
    chapter := u.chapter.getD n.chapter
    createdAt := u.createdAt.getD n.createdAt
    updatedAt := u.updatedAt.getD n.updatedAt
    tags := u.tags.getD n.tags
    color := u.color.getD n.color
    source := u.source.getD n.source }

/-- NotesManager.updateNote; the Bool is the returned success flag and the
store is the post-state. -/
def updateNote (s : Store) (noteId : String) (updates : NoteUpdates) (now : Nat) :
    Bool × Store :=
  match mapGet s.notes noteId with
  | none => (false, s)
  | some note =>
    let updatedNote := { applyUpdates note updates with updatedAt := some now }
    let notes' := mapSet s.notes noteId updatedNote
    let books' :=
      match mapGet s.books note.bookTitle with
      | some book =>
        mapSet s.books note.bookTitle
          { book with notes := replaceFirst (fun n => n.id = noteId) updatedNote book.notes }
      | none => s.books
    (true, { notes := notes', books := books' })

/-- NotesManager.deleteNote. -/
def deleteNote (s : Store) (noteId : String) : Bool × Store :=
  match mapGet s.notes noteId with
  | none => (false, s)
  | some note =>
    let notes' := mapDelete s.notes noteId
    let books' :=
      match mapGet s.books note.bookTitle with
      | some book =>
        let remaining := book.notes.filter (fun n => n.id ≠ noteId)
        mapSet s.books note.bookTitle
          { book with
            notes := remaining
            metadata := { book.metadata with totalNotes := remaining.length } }
      | none => s.books
    (true, { notes := notes', books := books' })

/-- NotesManager.deleteBook. -/
def deleteBook (s : Store) (bookTitle : String) : Bool × Store :=
  match mapGet s.books bookTitle with
  | none => (false, s)
  | some book =>
    let notes' := (book.notes.map (fun n => n.id)).foldl mapDelete s.notes
    (true, { notes := notes', books := mapDelete s.books bookTitle })

/-- The per-annotation match condition of NotesManager.searchNotes, with
the JS truthiness guards on the optional chapter and tags fields. -/
def noteMatches (searchTerm : String) (n : BookNote) : Bool :=
  sInc (jsToLower n.content) searchTerm ||
  sInc (jsToLower n.bookTitle) searchTerm ||
  (match n.chapter with
   | some c => !c.isEmpty && sInc (jsToLower c) searchTerm
   | none => false) ||
  (match n.tags with
   | some ts => ts.any (fun tag => sInc (jsToLower tag) searchTerm)
   | none => false)

/-- NotesManager.searchNotes. -/
def searchNotes (s : Store) (query : String) : List BookNote :=
  let searchTerm := jsToLower query
  (mapVals s.notes).filter (noteMatches searchTerm)

inductive SortKey where
  | position
  | date
  | chapter
deriving DecidableEq, Repr

/-- FormatOptions from src/shared/types/notes.ts; every field is optional
and the formatter fills in defaults by destructuring. -/
structure FormatOptions where
  includeMetadata : Option Bool := none
  includeLocation : Option Bool := none
  includeTags : Option Bool := none
  groupByChapter : Option Bool := none
  sortBy : Option SortKey := none

/-- The position sort key: position || 0. -/
def posKey (n : BookNote) : Int :=
  n.position.getD 0

/-- The sorting step shared by format and formatBook: position and date
have comparator branches, every other sortBy value (including chapter)
falls through and leaves the order unchanged. The source's stable
Array#sort is modelled by a stable insertion sort over the comparator's
at-most ordering. -/
def sortNotes (k : SortKey) (notes : List BookNote) : List BookNote :=
  match k with
  | .position => notes.insertionSort (fun a b => posKey a ≤ posKey b)
  | .date => notes.insertionSort (fun a b => a.createdAt ≤ b.createdAt)
  | .chapter => notes

/-- DefaultMarkdownFormatter.groupNotesByChapter: first-seen chapter order,
un-chaptered (or empty-chapter) annotations under the placeholder label. -/
def groupNotesByChapter (notes : List BookNote) : List (String × List BookNote) :=
  notes.foldl
    (fun chapters note =>
      let chapter :=
        match note.chapter with
        | some c => if c.isEmpty then "未分类" else c
        | none => "未分类"
      match mapGet chapters chapter with
      | some existing => mapSet chapters chapter (existing ++ [note])
      | none => chapters ++ [(chapter, [note])])
    []

/-- One block of DefaultMarkdownFormatter.formatNotes. -/
def formatNoteBlock (env : JsEnv) (includeLocation includeTags : Bool) (idx : Nat)
    (note : BookNote) : String :=
  let noteNumber := idx + 1
  let head :=
    match note.noteType with
    | .highlight =>
      "### 划线 " ++ toString noteNumber ++ "\n" ++ "> " ++ note.content ++ "\n\n"
    | .note => "### 笔记 " ++ toString noteNumber ++ "\n" ++ note.content ++ "\n\n"
    | .bookmark => "### 书签 " ++ toString noteNumber ++ "\n" ++ note.content ++ "\n\n"
  let locBlock :=
    if includeLocation then
      let info : List String :=
        (match note.chapter with
         | some c => if c.isEmpty then [] else ["章节: " ++ c]
         | none => []) ++
        (match note.location with
         | some l => if l.isEmpty then [] else ["位置: " ++ l]
         | none => []) ++
        (match note.position with
         | some p => if p = 0 then [] else ["位置: " ++ toString p]
         | none => [])
      if info.length > 0 then "**" ++ String.intercalate " | " info ++ "**\n\n" else ""
    else ""
  let tagsBlock :=
    if includeTags then
      match note.tags with
      | some ts =>
        if ts.length > 0 then "**标签**: " ++ String.intercalate ", " ts ++ "\n\n" else ""
      | none => ""
    else ""
  let timeBlock := "**创建时间**: " ++ env.locale note.createdAt ++ "\n\n"
  let colorBlock :=
    match note.color with
    | some c => if c.isEmpty then "" else "**颜色**: " ++ c ++ "\n\n"
    | none => ""
  head ++ locBlock ++ tagsBlock ++ timeBlock ++ colorBlock ++ "---\n\n"

/-- DefaultMarkdownFormatter.formatNotes. -/
def formatNotesList (env : JsEnv) (includeLocation includeTags : Bool)
    (notes : List BookNote) : String :=
  (notes.enum.map (fun p => formatNoteBlock env includeLocation includeTags p.1 p.2)).foldl
    (· ++ ·) ""

/-- DefaultMarkdownFormatter.format. -/
def format (env : JsEnv) (notes : List BookNote) (options : FormatOptions) : String :=
  let includeMetadata := options.includeMetadata.getD true
  let includeLocation := options.includeLocation.getD true
  let includeTags := options.includeTags.getD true
  let groupByChapter := options.groupByChapter.getD false
  let sortBy := options.sortBy.getD .position
  if notes.isEmpty then "# 读书笔记\n\n暂无笔记"
  else
    let sortedNotes := sortNotes sortBy notes
    let metaBlock :=
      if includeMetadata && decide (notes.length > 0) then
        match notes with
        | first :: _ =>
          "## 图书信息\n" ++ "- **书名**: " ++ first.bookTitle ++ "\n" ++
            (match first.bookAuthor with
             | some a => if a.isEmpty then "" else "- **作者**: " ++ a ++ "\n"
             | none => "") ++
            "- **笔记数量**: " ++ toString notes.length ++ "\n" ++
            "- **导出时间**: " ++ env.locale env.now ++ "\n\n"
        | [] => ""
      else ""
    let body :=
      if groupByChapter then
        (groupNotesByChapter sortedNotes).foldl
          (fun acc p =>
            acc ++ "## " ++ (if p.1.isEmpty then "未分类" else p.1) ++ "\n\n" ++
              formatNotesList env includeLocation includeTags p.2 ++ "\n")
          ""
      else formatNotesList env includeLocation includeTags sortedNotes
    "# 读书笔记\n\n" ++ metaBlock ++ body

/-- DefaultMarkdownFormatter.formatBook. -/
def formatBook (env : JsEnv) (data : ParsedBookData) (options : FormatOptions) :
    String :=
  let includeMetadata := options.includeMetadata.getD true
  let includeLocation := options.includeLocation.getD true
  let includeTags := options.includeTags.getD true
  let groupByChapter := options.groupByChapter.getD false
  let sortBy := options.sortBy.getD .position
  let metaBlock :=
    if includeMetadata then
      "## 图书信息\n" ++ "- **书名**: " ++ data.metadata.title ++ "\n" ++
        (match data.metadata.author with
         | some a => if a.isEmpty then "" else "- **作者**: " ++ a ++ "\n"
         | none => "") ++
        "- **笔记数量**: " ++ toString data.metadata.totalNotes ++ "\n" ++
        (match data.metadata.lastSyncDate with
         | some d => "- **最后同步**: " ++ env.locale d ++ "\n"
         | none => "") ++
        "- **导出时间**: " ++ env.locale env.now ++ "\n\n"
    else ""
  if data.notes.isEmpty then "# 读书笔记\n\n" ++ metaBlock ++ "暂无笔记"
  else
    let sortedNotes := sortNotes sortBy data.notes
    let body :=
      if groupByChapter then
        (groupNotesByChapter sortedNotes).foldl
          (fun acc p =>
            acc ++ "## " ++ (if p.1.isEmpty then "未分类" else p.1) ++ "\n\n" ++
              formatNotesList env includeLocation includeTags p.2 ++ "\n")
          ""
      else formatNotesList env includeLocation includeTags sortedNotes
    "# 读书笔记\n\n" ++ metaBlock ++ body

/-- A fixed ambient environment for concrete evaluations: time zero, the
Date constructor pinned to zero on matched date strings, and an empty
locale rendering. -/
def env0 : JsEnv :=
  { now := 0, parseDate := fun _ => 0, locale := fun _ => "" }

/-- The two-index consistency property of the store: every annotation held
in a stored bundle is mapped, under its id, to that same annotation by the
flat index. -/
def StoreInv (s : Store) : Prop :=
  ∀ p ∈ s.books, ∀ n ∈ p.2.notes, mapGet s.notes n.id = some n

/-- A minimal manual annotation used by the concrete store scenarios. -/
def mkManualNote (i c : String) : BookNote :=
  { id := i
    bookTitle := "B"
    noteType := .highlight
    content := c
    createdAt := 0
    source := .manual }

/-- A bundle carrying two annotations that share one original id, as in
the repository's duplicate-id boundary test. -/
def c1DupBundle : ParsedBookData :=
  { metadata := { title := "B", totalNotes := 2 }
    notes := [mkManualNote "a" "c1", mkManualNote "a" "c2"] }

/-- The store after ingesting the duplicate-id bundle into an empty store. -/
def c1Store : Store :=
  storeParsedData {} c1DupBundle

/-- A bundle whose annotations carry pairwise distinct ids. -/
def c1CleanBundle : ParsedBookData :=
  { metadata := { title := "B", totalNotes := 2 }
    notes := [mkManualNote "a" "c1", mkManualNote "b" "c2"] }

/-- Detector-accepted input that is JSON-like yet fails the JSON parse:
the Duokan detector accepts it through the 多看 marker, and the plain-text
fallback then extracts its (long, unfiltered) single line as a highlight. -/
def c2Bad : String :=
  "\x7b\"bookTitle\": \"多看书\", \"notes\": [这是一条超过五个字符的笔记内容"

/-- The repository test's truncated-JSON input, whose only line is
filtered out by the plain-text heuristics (it contains 作者). -/
def c2Filtered : String :=
  "\x7b\"bookTitle\": \"测试\", \"author\": \"作者\", \"notes\": ["

/-- CSV input recognized by the WeChat detector (via 读书笔记) whose header
places 内容 at column index 2 while the data row has only two columns: the
source indexes columns[2], gets undefined, and the .replace call throws. -/
def c3Bad : String :=
  "读书笔记,章节,内容\na,b"

/-- An empty bundle titled X, ingested repeatedly in the title-suffix
scenario. -/
def c4Bundle : ParsedBookData :=
  { metadata := { title := "X", totalNotes := 0 }, notes := [] }

/-- A store that does not contain the title X but does contain X_1. -/
def c4PreStore : Store :=
  { books := [("X_1", c4Bundle)] }

/-- The store after ingesting three bundles titled X into c4PreStore. -/
def c4Store3 : Store :=
  storeParsedData (storeParsedData (storeParsedData c4PreStore c4Bundle) c4Bundle)
    c4Bundle

/-- Annotation with the lexicographically smaller chapter label. -/
def c6NoteA : BookNote :=
  { id := "na"
    bookTitle := "T"
    noteType := .note
    content := "AAA"
    chapter := some "a"
    position := some 1
    createdAt := 1
    source := .manual }

/-- Annotation with the lexicographically larger chapter label. -/
def c6NoteB : BookNote :=
  { id := "nb"
    bookTitle := "T"
    noteType := .note
    content := "BBB"
    chapter := some "b"
    position := some 2
    createdAt := 2
    source := .manual }

/-- Render options selecting the chapter sort. -/
def c6Opts : FormatOptions :=
  { sortBy := some .chapter }

/-- Lexicographic strict order on character lists; this renders the
claim's phrase ordered lexicographically by chapter label and is compared
against the code's behavior. -/
def lexLtChars : List Char → List Char → Bool
  | [], [] => false
  | [], _ :: _ => true
  | _ :: _, [] => false
  | a :: as, b :: bs =>
    if a < b then true else if b < a then false else lexLtChars as bs

/-- True when a occurs in s strictly before b does. -/
def beforeIn (s a b : String) : Bool :=
  match substrPos s a, substrPos s b with
  | some i, some j => i < j
  | _, _ => false

/-- Valid JSON whose single notes element has no content or text field:
the JSON path defaults the content to the empty string and stores it. -/
def c7Json : String :=
  "\x7b\"notes\":[\x7b\"type\":\"highlight\"\x7d]\x7d"

/-- The search-scenario annotation with content JavaScript tips. -/
def c8Note : BookNote :=
  { id := "test-1"
    bookTitle := "测试书籍"
    noteType := .highlight
    content := "JavaScript tips"
    createdAt := 0
    source := .duokan }

/-- A store holding exactly the search-scenario annotation. -/
def c8Store : Store :=
  { notes := [("test-1", c8Note)]
    books := [("测试书籍",
      { metadata := { title := "测试书籍", totalNotes := 1 }, notes := [c8Note] })] }

/-- A one-book, one-annotation store for the deletion scenario. -/
def c5Store : Store :=
  { notes := [("n1", mkManualNote "n1" "x")]
    books := [("B",
      { metadata := { title := "B", totalNotes := 1 }
        notes := [mkManualNote "n1" "x"] })] }

/-- A one-annotation store for the unknown-id mutation scenario. -/
def c9Store : Store :=
  { notes := [("test-1", mkManualNote "test-1" "原始内容")]
    books := [("B",
      { metadata := { title := "B", totalNotes := 1 }
        notes := [mkManualNote "test-1" "原始内容"] })] }
/-- chInfix of the empty pattern always holds. -/
theorem chInfix_nil (l : List Char) : chInfix [] l = true := by
  induction l with
  | nil => rfl
  | cons c rest ih => simp [chInfix, List.isPrefixOf, ih]

/-- sInc with the empty pattern always holds. -/
theorem sInc_empty (s : String) : sInc s "" = true := by
  simpa [sInc] using chInfix_nil s.data

section MapLemmas

variable {β : Type}

theorem mapGet_nil (k : String) : mapGet ([] : List (String × β)) k = none := rfl

theorem mapGet_eq_none_iff (m : List (String × β)) (k : String) :
    mapGet m k = none ↔ k ∉ mapKeys m := by
  induction m with
  | nil => simp [mapGet, mapKeys]
  | cons p t ih =>
    obtain ⟨k₁, v₁⟩ := p
    by_cases h : k₁ = k
    · subst h; simp [mapGet, mapKeys]
    · simp [mapGet, mapKeys, h, ih, Ne.symm h]

theorem mapGet_isSome_of_mem (m : List (String × β)) (k : String) (v : β)
    (h : (k, v) ∈ m) : (mapGet m k).isSome := by
  induction m with
  | nil => simp at h
  | cons p t ih =>
    obtain ⟨k₁, v₁⟩ := p
    rcases List.mem_cons.mp h with h1 | h1
    · cases h1; simp [mapGet]
    · by_cases hk : k₁ = k <;> simp [mapGet, hk, ih h1]

theorem mapSet_of_not_mem (m : List (String × β)) (k : String) (v : β)
    (h : k ∉ mapKeys m) : mapSet m k v = m ++ [(k, v)] := by
  induction m with
  | nil => rfl
  | cons p t ih =>
    obtain ⟨k₁, v₁⟩ := p
    simp only [mapKeys, List.map_cons, List.mem_cons] at h
    push_neg at h
    simp [mapSet, Ne.symm h.1, ih h.2, mapKeys]

theorem mapGet_set_self (m : List (String × β)) (k : String) (v : β) :
    mapGet (mapSet m k v) k = some v := by
  induction m with
  | nil => simp [mapSet, mapGet]
  | cons p t ih =>
    obtain ⟨k₁, v₁⟩ := p
    by_cases h : k₁ = k <;> simp [mapSet, mapGet, h, ih]

theorem mapGet_set_ne (m : List (String × β)) (k k' : String) (v : β)
    (h : k ≠ k') : mapGet (mapSet m k v) k' = mapGet m k' := by
  induction m with
  | nil => simp [mapSet, mapGet, h]
  | cons p t ih =>
    obtain ⟨k₁, v₁⟩ := p
    by_cases h1 : k₁ = k <;> by_cases h2 : k₁ = k' <;>
      simp_all [mapSet, mapGet]

theorem mapSet_set_same (m : List (String × β)) (k : String) (v w : β) :
    mapSet (mapSet m k v) k w = mapSet m k w := by
  induction m with
  | nil => simp [mapSet]
  | cons p t ih =>
    obtain ⟨k₁, v₁⟩ := p
    by_cases h : k₁ = k <;> simp [mapSet, h, ih]

theorem mapKeys_set (m : List (String × β)) (k : String) (v : β)
    (h : k ∉ mapKeys m) : mapKeys (mapSet m k v) = mapKeys m ++ [k] := by
  rw [mapSet_of_not_mem m k v h]; simp [mapKeys]

theorem mem_of_mem_mapSet (m : List (String × β)) (k : String) (v : β)
    (p : String × β) (h : p ∈ mapSet m k v) : p = (k, v) ∨ p ∈ m := by
  induction m with
  | nil => simpa [mapSet] using h
  | cons q t ih =>
    obtain ⟨k₁, v₁⟩ := q
    by_cases h1 : k₁ = k
    · simp only [mapSet, h1, if_pos rfl] at h
      rcases List.mem_cons.mp h with h2 | h2
      · exact Or.inl h2
      · exact Or.inr (List.mem_cons_of_mem _ h2)
    · simp only [mapSet, h1, if_neg h1] at h
      rcases List.mem_cons.mp h with h2 | h2
      · exact Or.inr (h2 ▸ List.mem_cons_self _ _)
      · rcases ih h2 with h3 | h3
        · exact Or.inl h3
        · exact Or.inr (List.mem_cons_of_mem _ h3)

theorem mapGet_delete_ne (m : List (String × β)) (k k' : String) (h : k ≠ k') :
    mapGet (mapDelete m k) k' = mapGet m k' := by
  induction m with
  | nil => rfl
  | cons p t ih =>
    obtain ⟨k₁, v₁⟩ := p
    by_cases h1 : k₁ = k
    · subst h1
      simp [mapDelete, mapGet, h]
    · simp only [mapDelete, if_neg h1, mapGet]
      by_cases h2 : k₁ = k' <;> simp [h2, ih]

theorem mapKeys_delete_sublist (m : List (String × β)) (k : String) :
    (mapKeys (mapDelete m k)).Sublist (mapKeys m) := by
  induction m with
  | nil => simp [mapDelete, mapKeys]
  | cons p t ih =>
    obtain ⟨k₁, v₁⟩ := p
    by_cases h : k₁ = k
    · simp only [mapDelete, h, if_pos rfl, mapKeys, List.map_cons]
      exact (List.sublist_cons_self _ _)
    · simpa [mapDelete, h, mapKeys] using ih.cons₂ k₁

/-- On a map without duplicate keys (every JS Map), deleting a key makes
its lookup undefined. -/
theorem mapGet_delete_self (m : List (String × β)) (k : String)
    (hnd : (mapKeys m).Nodup) : mapGet (mapDelete m k) k = none := by
  induction m with
  | nil => rfl
  | cons p t ih =>
    obtain ⟨k₁, v₁⟩ := p
    simp only [mapKeys, List.map_cons, List.nodup_cons] at hnd
    by_cases h : k₁ = k
    · subst h
      simp only [mapDelete, if_pos rfl]
      exact (mapGet_eq_none_iff t k₁).mpr hnd.1
    · simp [mapDelete, h, mapGet, ih hnd.2]

theorem mapKeys_delete_nodup (m : List (String × β)) (k : String)
    (hnd : (mapKeys m).Nodup) : (mapKeys (mapDelete m k)).Nodup :=
  (mapKeys_delete_sublist m k).nodup hnd

/-- Folding deletions over a list of keys: lookups of deleted keys become
undefined, all other lookups are untouched. -/
theorem mapGet_foldl_delete (ids : List String) (m : List (String × β)) (k : String)
    (hnd : (mapKeys m).Nodup) :
    mapGet (ids.foldl mapDelete m) k = if k ∈ ids then none else mapGet m k := by
  induction ids generalizing m with
  | nil => simp
  | cons i rest ih =>
    have hnd' : (mapKeys (mapDelete m i)).Nodup := mapKeys_delete_nodup m i hnd
    by_cases hk : k ∈ i :: rest
    · rcases List.mem_cons.mp hk with h1 | h1
      · subst h1
        by_cases h2 : k ∈ rest
        · simp [List.foldl_cons, ih (mapDelete m k) hnd', h2, hk]
        · simp [List.foldl_cons, ih (mapDelete m k) hnd', h2, hk,
            mapGet_delete_self m k hnd]
      · simp [List.foldl_cons, ih (mapDelete m i) hnd', h1, hk]
    · simp only [List.mem_cons, not_or] at hk
      simp [List.foldl_cons, ih (mapDelete m i) hnd', hk.2,
        mapGet_delete_ne m i k (Ne.symm hk.1), hk.1, hk.2]

end MapLemmas

theorem sInc_of_data_nil (s pat : String) (h : pat.data = []) : sInc s pat = true := by
  unfold sInc
  rw [h]
  exact chInfix_nil s.data

theorem append_ne_self (X t : String) (ht : 1 ≤ t.length) : X ++ t ≠ X := by
  intro h
  have hl := congrArg String.length h
  rw [String.length_append] at hl
  omega

theorem append_right_inj (X a b : String) (h : X ++ a = X ++ b) : a = b := by
  have hd : (X ++ a).data = (X ++ b).data := congrArg String.data h
  rw [String.data_append, String.data_append] at hd
  exact String.ext (List.append_cancel_left hd)

theorem suffixed_one (X : String) : suffixed X 1 = X ++ "_1" := by
  show X ++ "_" ++ toString 1 = X ++ "_1"
  rw [String.append_assoc]
  rfl

theorem suffixed_two (X : String) : suffixed X 2 = X ++ "_2" := by
  show X ++ "_" ++ toString 2 = X ++ "_2"
  rw [String.append_assoc]
  rfl

theorem suffix_one_ne_base (X : String) : X ++ "_1" ≠ X :=
  append_ne_self X "_1" (by decide)

theorem suffix_two_ne_base (X : String) : X ++ "_2" ≠ X :=
  append_ne_self X "_2" (by decide)

theorem suffix_two_ne_one (X : String) : X ++ "_2" ≠ X ++ "_1" := by
  intro h
  have := append_right_inj X "_2" "_1" h
  exact absurd this (by decide)

section MoreMapLemmas

variable {β : Type}

theorem mapGet_append (a b : List (String × β)) (k : String) :
    mapGet (a ++ b) k =
      match mapGet a k with
      | some v => some v
      | none => mapGet b k := by
  induction a with
  | nil => simp [mapGet]
  | cons p t ih =>
    obtain ⟨k₁, v₁⟩ := p
    by_cases h : k₁ = k <;> simp [mapGet, h, ih]

theorem mapGet_append_left (a b : List (String × β)) (k : String) (v : β)
    (h : mapGet a k = some v) : mapGet (a ++ b) k = some v := by
  rw [mapGet_append, h]

theorem mapGet_append_right (a b : List (String × β)) (k : String)
    (h : mapGet a k = none) : mapGet (a ++ b) k = mapGet b k := by
  rw [mapGet_append, h]

end MoreMapLemmas

theorem mapGet_entries_of_mem (l : List BookNote) (n : BookNote)
    (hnd : (l.map (fun m => m.id)).Nodup) (hn : n ∈ l) :
    mapGet (l.map (fun m => (m.id, m))) n.id = some n := by
  induction l with
  | nil => simp at hn
  | cons m rest ih =>
    simp only [List.map_cons, List.nodup_cons, List.mem_map] at hnd
    rcases List.mem_cons.mp hn with h1 | h1
    · subst h1
      simp [mapGet]
    · have hne : m.id ≠ n.id := by
        intro hc
        exact hnd.1 ⟨n, h1, hc.symm⟩
      simp [mapGet, hne, ih hnd.2 h1]

theorem resolveKeyAux_stop (ks : List String) (base : String) (fuel counter : Nat)
    (h : suffixed base counter ∉ ks) :
    resolveKeyAux ks base (fuel + 1) counter = suffixed base counter := by
  simp [resolveKeyAux, h]

theorem resolveKeyAux_step (ks : List String) (base : String) (fuel counter : Nat)
    (h : suffixed base counter ∈ ks) :
    resolveKeyAux ks base (fuel + 1) counter = resolveKeyAux ks base fuel (counter + 1) := by
  simp [resolveKeyAux, h]

theorem resolveKey_not_mem (ks : List String) (base : String) (h : base ∉ ks) :
    resolveKey ks base = base := by
  have := resolveKeyAux_stop ks base ks.length 0 h
  simpa [resolveKey, suffixed] using this

theorem resolveKey_one (ks : List String) (base : String)
    (h0 : base ∈ ks) (h1 : suffixed base 1 ∉ ks) :
    resolveKey ks base = suffixed base 1 := by
  obtain ⟨x, t, rfl⟩ : ∃ x t, ks = x :: t := by
    cases ks with
    | nil => simp at h0
    | cons x t => exact ⟨x, t, rfl⟩
  unfold resolveKey
  rw [show (x :: t).length + 1 = t.length + 1 + 1 from by simp]
  rw [resolveKeyAux_step _ _ _ _ (by simpa [suffixed] using h0)]
  exact resolveKeyAux_stop _ _ _ _ h1

theorem resolveKey_two (ks : List String) (base : String)
    (h0 : base ∈ ks) (h1 : suffixed base 1 ∈ ks) (h2 : suffixed base 2 ∉ ks) :
    resolveKey ks base = suffixed base 2 := by
  obtain ⟨x, y, t, rfl⟩ : ∃ x y t, ks = x :: y :: t := by
    cases ks with
    | nil => simp at h0
    | cons x t =>
      cases t with
      | nil =>
        simp only [List.mem_singleton] at h0 h1
        rw [suffixed_one] at h1
        exact absurd (h1.trans h0.symm) (suffix_one_ne_base base)
      | cons y t => exact ⟨x, y, t, rfl⟩
  unfold resolveKey
  rw [show (x :: y :: t).length + 1 = t.length + 1 + 1 + 1 from by simp]
  rw [resolveKeyAux_step _ _ _ _ (by simpa [suffixed] using h0)]
  rw [resolveKeyAux_step _ _ _ _ (by simpa using h1)]
  exact resolveKeyAux_stop _ _ _ _ h2

theorem replaceFirst_length (p : α → Bool) (v : α) (l : List α) :
    (replaceFirst p v l).length = l.length := by
  induction l with
  | nil => rfl
  | cons a rest ih =>
    by_cases h : p a <;> simp [replaceFirst, h, ih]

theorem replaceFirst_forall (P : α → Prop) (p : α → Bool) (v : α) (l : List α)
    (hv : P v) (hl : ∀ a ∈ l, P a) : ∀ a ∈ replaceFirst p v l, P a := by
  induction l with
  | nil => simp [replaceFirst]
  | cons a rest ih =>
    by_cases h : p a
    · simp only [replaceFirst, h, if_pos]
      intro b hb
      rcases List.mem_cons.mp hb with h1 | h1
      · exact h1 ▸ hv
      · exact hl b (List.mem_cons_of_mem _ h1)
    · simp only [replaceFirst, h, if_neg, Bool.false_eq_true, not_false_iff]
      intro b hb
      rcases List.mem_cons.mp hb with h1 | h1
      · exact h1 ▸ hl a (List.mem_cons_self _ _)
      · exact ih (fun c hc => hl c (List.mem_cons_of_mem _ hc)) b h1

theorem replaceFirst_append_no_match (p : α → Bool) (v : α) (pre l : List α)
    (hpre : ∀ a ∈ pre, p a = false) :
    replaceFirst p v (pre ++ l) = pre ++ replaceFirst p v l := by
  induction pre with
  | nil => rfl
  | cons a rest ih =>
    have ha := hpre a (List.mem_cons_self _ _)
    simp [replaceFirst, ha, ih (fun b hb => hpre b (List.mem_cons_of_mem _ hb))]

theorem replaceFirst_head_match (p : α → Bool) (v a : α) (l : List α)
    (h : p a = true) : replaceFirst p v (a :: l) = v :: l := by
  simp [replaceFirst, h]

theorem idLoop_notes_length (l : List BookNote) :
    ∀ (flat : List (String × BookNote)) (b : List BookNote),
      (idLoop flat b l).2.length = b.length := by
  induction l with
  | nil => intro flat b; rfl
  | cons n rest ih =>
    intro flat b
    simp only [idLoop]
    rw [ih]
    exact replaceFirst_length _ _ b

theorem idLoop_notes_forall (P : BookNote → Prop)
    (hP : ∀ n s, P n → P { n with id := s }) (l : List BookNote) :
    ∀ (flat : List (String × BookNote)) (b : List BookNote),
      (∀ n ∈ b, P n) → (∀ n ∈ l, P n) → ∀ n ∈ (idLoop flat b l).2, P n := by
  induction l with
  | nil => intro flat b hb _; exact hb
  | cons n rest ih =>
    intro flat b hb hl
    simp only [idLoop]
    refine ih _ _ ?_ (fun m hm => hl m (List.mem_cons_of_mem _ hm))
    exact replaceFirst_forall P _ _ b (hP n _ (hl n (List.mem_cons_self _ _))) hb

theorem idLoop_clean (l : List BookNote) :
    ∀ (flat : List (String × BookNote)) (pre : List BookNote),
      (l.map (fun n => n.id)).Nodup →
      (∀ n ∈ l, mapGet flat n.id = none) →
      (∀ p ∈ pre, ∀ n ∈ l, p.id ≠ n.id) →
      idLoop flat (pre ++ l) l = (flat ++ l.map (fun n => (n.id, n)), pre ++ l) := by
  induction l with
  | nil => intro flat pre _ _ _; simp [idLoop]
  | cons n rest ih =>
    intro flat pre hnd hfresh hpre
    simp only [List.map_cons, List.nodup_cons, List.mem_map, not_exists] at hnd
    have hfr : mapGet flat n.id = none := hfresh n (List.mem_cons_self _ _)
    have hnotmem : n.id ∉ mapKeys flat := (mapGet_eq_none_iff flat n.id).mp hfr
    have hset : mapSet flat n.id n = flat ++ [(n.id, n)] :=
      mapSet_of_not_mem flat n.id n hnotmem
    have hrep :
        replaceFirst (fun m => decide (m.id = n.id)) n (pre ++ n :: rest) =
          pre ++ n :: rest := by
      rw [replaceFirst_append_no_match _ _ _ _
        (fun a ha => decide_eq_false (hpre a ha n (List.mem_cons_self _ _)))]
      rw [replaceFirst_head_match _ _ _ _ (by simp)]
    have hupd : ({ n with id := n.id } : BookNote) = n := rfl
    simp only [idLoop, resolveKey_not_mem _ _ hnotmem, hupd, hset, hrep]
    have hpre2 : pre ++ n :: rest = (pre ++ [n]) ++ rest := by simp
    rw [hpre2]
    rw [ih (flat ++ [(n.id, n)]) (pre ++ [n]) hnd.2 ?_ ?_]
    · simp
    · intro m hm
      rw [mapGet_append, hfresh m (List.mem_cons_of_mem _ hm)]
      have : n.id ≠ m.id := fun hc => hnd.1 m ⟨hm, hc.symm⟩
      simp [mapGet, this]
    · intro p hp m hm
      rcases List.mem_append.mp hp with h1 | h1
      · exact hpre p h1 m (List.mem_cons_of_mem _ hm)
      · rcases List.mem_singleton.mp h1 with rfl
        exact fun hc => hnd.1 m ⟨hm, hc.symm⟩

theorem storeParsedData_notes_clean (s : Store) (d : ParsedBookData)
    (hnd : (d.notes.map (fun n => n.id)).Nodup)
    (hfresh : ∀ n ∈ d.notes, mapGet s.notes n.id = none) :
    let T := resolveKey (mapKeys s.books) d.metadata.title
    let stamped := d.notes.map (fun n => { n with bookTitle := T })
    (storeParsedData s d).notes = s.notes ++ stamped.map (fun n => (n.id, n)) ∧
      (storeParsedData s d).books =
        mapSet s.books T
          { metadata := { d.metadata with title := T }
            notes := stamped
            rawData := d.rawData } := by
  intro T stamped
  have hids : stamped.map (fun n => n.id) = d.notes.map (fun n => n.id) := by
    simp [stamped, List.map_map]
  have hnd' : (stamped.map (fun n => n.id)).Nodup := by rw [hids]; exact hnd
  have hfresh' : ∀ n ∈ stamped, mapGet s.notes n.id = none := by
    intro n hn
    simp only [stamped, List.mem_map] at hn
    obtain ⟨m, hm, rfl⟩ := hn
    exact hfresh m hm
  have hloop := idLoop_clean stamped s.notes [] hnd' hfresh' (by simp)
  simp only [List.nil_append] at hloop
  constructor
  · show (idLoop s.notes stamped stamped).1 = _
    rw [hloop]
  · show mapSet (mapSet s.books T _) T _ = _
    rw [mapSet_set_same]
    congr 1
    show ({ metadata := { d.metadata with title := T }
            notes := (idLoop s.notes stamped stamped).2
            rawData := d.rawData } : ParsedBookData) = _
    rw [hloop]

theorem stamped_ids (l : List BookNote) (T : String) :
    (l.map (fun n => { n with bookTitle := T })).map (fun n => n.id)
      = l.map (fun n => n.id) := by
  simp [List.map_map]

/-- C1: after ingestion, every annotation held in a stored bundle is mapped
by the flat index, under that annotation's id, to that same annotation —
proved here as amended: the incoming bundle's annotation ids must be
pairwise distinct and absent from the flat index. When a bundle carries
duplicate ids the source's write-back (findIndex over the original id)
targets the first matching position, the bundle keeps a stale annotation
under the old id, and the two indexes diverge (see the counterexample). -/
theorem C1_two_index_consistency_amended (s : Store) (d : ParsedBookData)
    (hInv : StoreInv s)
    (hnd : (d.notes.map (fun n => n.id)).Nodup)
    (hfresh : ∀ n ∈ d.notes, mapGet s.notes n.id = none) :
    StoreInv (storeParsedData s d) := by
  obtain ⟨hnotes, hbooks⟩ := storeParsedData_notes_clean s d hnd hfresh
  intro p hp n hn
  rw [hnotes]
  rw [hbooks] at hp
  have hids := stamped_ids d.notes (resolveKey (mapKeys s.books) d.metadata.title)
  rcases mem_of_mem_mapSet _ _ _ _ hp with h1 | h1
  · subst h1
    have hn' := hn
    have hfr : mapGet s.notes n.id = none := by
      rcases List.mem_map.mp hn' with ⟨m, hm, rfl⟩
      exact hfresh m hm
    rw [mapGet_append_right _ _ _ hfr]
    exact mapGet_entries_of_mem _ n (by rw [hids]; exact hnd) hn'
  · exact mapGet_append_left _ _ _ _ (hInv p h1 n hn)

/-- C1 witness: ingesting a bundle with distinct fresh ids into the empty
store yields a store satisfying the two-index consistency property. -/
theorem C1_two_index_consistency_amended_witness :
    StoreInv (storeParsedData {} c1CleanBundle) :=
  C1_two_index_consistency_amended {} c1CleanBundle
    (by intro p hp n hn; simp at hp) (by decide) (by decide)

/-- C1 counterexample: ingesting a bundle whose two annotations share the
original id a leaves the bundle holding an annotation with id a and content
c2 while the flat index maps a to the annotation with content c1, so the
claimed consistency fails as stated. -/
theorem C1_counterexample :
    (getBook c1Store "B").map (fun b => b.notes.map (fun n => (n.id, n.content)))
        = some [("a_1", "c2"), ("a", "c2")] ∧
      (getNoteById c1Store "a").map (fun n => n.content) = some "c1" ∧
      ¬ StoreInv c1Store := by
  refine ⟨by decide, by decide, ?_⟩
  show ¬ ∀ p ∈ c1Store.books, ∀ n ∈ p.2.notes, mapGet c1Store.notes n.id = some n
  decide

/-- The per-ingestion bookkeeping of storeParsedData: the resolved title
maps to a bundle stamped with it (same annotation count, every annotation's
bookTitle rewritten), all other titles are untouched, and a fresh resolved
title is appended to the key order. -/
theorem storeParsedData_book_facts (s : Store) (d : ParsedBookData) :
    (∃ b, getBook (storeParsedData s d)
          (resolveKey (mapKeys s.books) d.metadata.title) = some b ∧
        b.metadata.title = resolveKey (mapKeys s.books) d.metadata.title ∧
        b.notes.length = d.notes.length ∧
        ∀ n ∈ b.notes, n.bookTitle = resolveKey (mapKeys s.books) d.metadata.title) ∧
      (∀ k, k ≠ resolveKey (mapKeys s.books) d.metadata.title →
        getBook (storeParsedData s d) k = getBook s k) ∧
      (resolveKey (mapKeys s.books) d.metadata.title ∉ mapKeys s.books →
        mapKeys (storeParsedData s d).books =
          mapKeys s.books ++ [resolveKey (mapKeys s.books) d.metadata.title]) := by
  set T := resolveKey (mapKeys s.books) d.metadata.title with hT
  have hbooks : (storeParsedData s d).books =
      mapSet s.books T
        { metadata := { d.metadata with title := T }
          notes := (idLoop s.notes (d.notes.map (fun n => { n with bookTitle := T }))
            (d.notes.map (fun n => { n with bookTitle := T }))).2
          rawData := d.rawData } := by
    show mapSet (mapSet s.books T _) T _ = _
    rw [mapSet_set_same]
  refine ⟨⟨{ metadata := { d.metadata with title := T }
             notes := (idLoop s.notes (d.notes.map (fun n => { n with bookTitle := T }))
               (d.notes.map (fun n => { n with bookTitle := T }))).2
             rawData := d.rawData }, ?_, rfl, ?_, ?_⟩, ?_, ?_⟩
  · show mapGet (storeParsedData s d).books T = _
    rw [hbooks, mapGet_set_self]
  · show (idLoop _ _ _).2.length = _
    rw [idLoop_notes_length]
    simp
  · show ∀ n ∈ (idLoop _ _ _).2, n.bookTitle = T
    refine idLoop_notes_forall (fun n => n.bookTitle = T) (fun n s h => h) _ _ _ ?_ ?_
    · intro n hn
      rcases List.mem_map.mp hn with ⟨m, _, rfl⟩
      rfl
    · intro n hn
      rcases List.mem_map.mp hn with ⟨m, _, rfl⟩
      rfl
  · intro k hk
    show mapGet (storeParsedData s d).books k = mapGet s.books k
    rw [hbooks, mapGet_set_ne _ _ _ _ (Ne.symm hk)]
  · intro hnot
    rw [hbooks, mapKeys_set _ _ _ hnot]

/-- C4: ingesting three bundles titled X stores them under X, X_1, X_2 with
every annotation stamped with its bundle's resolved title — proved here as
amended: the store must contain none of X, X_1, X_2 (the claim as frozen
only excluded X; a preexisting X_1 shifts the sequence to X, X_2, X_3, see
the counterexample). -/
theorem C4_title_suffixing_amended (s : Store) (X : String)
    (d₁ d₂ d₃ : ParsedBookData)
    (h₁ : d₁.metadata.title = X) (h₂ : d₂.metadata.title = X)
    (h₃ : d₃.metadata.title = X)
    (hX : mapGet s.books X = none)
    (hX1 : mapGet s.books (X ++ "_1") = none)
    (hX2 : mapGet s.books (X ++ "_2") = none) :
    mapKeys (storeParsedData (storeParsedData (storeParsedData s d₁) d₂) d₃).books
        = mapKeys s.books ++ [X, X ++ "_1", X ++ "_2"] ∧
      (∃ b, getBook (storeParsedData (storeParsedData (storeParsedData s d₁) d₂) d₃) X
          = some b ∧ b.metadata.title = X ∧ b.notes.length = d₁.notes.length ∧
          ∀ n ∈ b.notes, n.bookTitle = X) ∧
      (∃ b, getBook (storeParsedData (storeParsedData (storeParsedData s d₁) d₂) d₃)
            (X ++ "_1")
          = some b ∧ b.metadata.title = X ++ "_1" ∧ b.notes.length = d₂.notes.length ∧
          ∀ n ∈ b.notes, n.bookTitle = X ++ "_1") ∧
      (∃ b, getBook (storeParsedData (storeParsedData (storeParsedData s d₁) d₂) d₃)
            (X ++ "_2")
          = some b ∧ b.metadata.title = X ++ "_2" ∧ b.notes.length = d₃.notes.length ∧
          ∀ n ∈ b.notes, n.bookTitle = X ++ "_2") := by
  have hXmem : X ∉ mapKeys s.books := (mapGet_eq_none_iff _ _).mp hX
  have hX1mem : X ++ "_1" ∉ mapKeys s.books := (mapGet_eq_none_iff _ _).mp hX1
  have hX2mem : X ++ "_2" ∉ mapKeys s.books := (mapGet_eq_none_iff _ _).mp hX2
  -- first ingestion
  have hT₁ : resolveKey (mapKeys s.books) d₁.metadata.title = X := by
    rw [h₁]; exact resolveKey_not_mem _ _ hXmem
  obtain ⟨⟨b₁, hget₁, htitle₁, hlen₁, hbt₁⟩, huntouched₁, hkeys₁⟩ :=
    storeParsedData_book_facts s d₁
  rw [hT₁] at hget₁ htitle₁ hbt₁ huntouched₁ hkeys₁
  have hK₁ : mapKeys (storeParsedData s d₁).books = mapKeys s.books ++ [X] :=
    hkeys₁ hXmem
  -- second ingestion
  have hT₂ : resolveKey (mapKeys (storeParsedData s d₁).books) d₂.metadata.title
      = X ++ "_1" := by
    rw [h₂, hK₁, ← suffixed_one]
    refine resolveKey_one _ _ (by simp) ?_
    rw [suffixed_one]
    intro hmem
    rcases List.mem_append.mp hmem with hmem | hmem
    · exact hX1mem hmem
    · exact suffix_one_ne_base X (List.mem_singleton.mp hmem)
  obtain ⟨⟨b₂, hget₂, htitle₂, hlen₂, hbt₂⟩, huntouched₂, hkeys₂⟩ :=
    storeParsedData_book_facts (storeParsedData s d₁) d₂
  rw [hT₂] at hget₂ htitle₂ hbt₂ huntouched₂ hkeys₂
  have hK₂ : mapKeys (storeParsedData (storeParsedData s d₁) d₂).books
      = mapKeys s.books ++ [X] ++ [X ++ "_1"] := by
    rw [hkeys₂ ?_, hK₁]
    rw [hK₁]
    intro hmem
    rcases List.mem_append.mp hmem with hmem | hmem
    · exact hX1mem hmem
    · exact suffix_one_ne_base X (List.mem_singleton.mp hmem)
  -- third ingestion
  have hT₃ : resolveKey
      (mapKeys (storeParsedData (storeParsedData s d₁) d₂).books) d₃.metadata.title
      = X ++ "_2" := by
    rw [h₃, hK₂, ← suffixed_two]
    refine resolveKey_two _ _ (by simp) (by rw [suffixed_one]; simp) ?_
    rw [suffixed_two]
    intro hmem
    rcases List.mem_append.mp hmem with hmem | hmem
    · rcases List.mem_append.mp hmem with hmem | hmem
      · exact hX2mem hmem
      · exact suffix_two_ne_base X (List.mem_singleton.mp hmem)
    · exact suffix_two_ne_one X (List.mem_singleton.mp hmem)
  obtain ⟨⟨b₃, hget₃, htitle₃, hlen₃, hbt₃⟩, huntouched₃, hkeys₃⟩ :=
    storeParsedData_book_facts (storeParsedData (storeParsedData s d₁) d₂) d₃
  rw [hT₃] at hget₃ htitle₃ hbt₃ huntouched₃ hkeys₃
  have hK₃ : mapKeys
      (storeParsedData (storeParsedData (storeParsedData s d₁) d₂) d₃).books
      = mapKeys s.books ++ [X] ++ [X ++ "_1"] ++ [X ++ "_2"] := by
    rw [hkeys₃ ?_, hK₂]
    rw [hK₂]
    intro hmem
    rcases List.mem_append.mp hmem with hmem | hmem
    · rcases List.mem_append.mp hmem with hmem | hmem
      · exact hX2mem hmem
      · exact suffix_two_ne_base X (List.mem_singleton.mp hmem)
    · exact suffix_two_ne_one X (List.mem_singleton.mp hmem)
  refine ⟨by rw [hK₃]; simp, ⟨b₁, ?_, htitle₁, hlen₁, hbt₁⟩,
    ⟨b₂, ?_, htitle₂, hlen₂, hbt₂⟩, ⟨b₃, hget₃, htitle₃, hlen₃, hbt₃⟩⟩
  · rw [huntouched₃ X (Ne.symm (suffix_two_ne_base X)),
      huntouched₂ X (Ne.symm (suffix_one_ne_base X))]
    exact hget₁
  · rw [huntouched₃ (X ++ "_1") (Ne.symm (suffix_two_ne_one X))]
    exact hget₂

/-- C4 witness: three bundles titled X ingested into the empty store land
under X, X_1 and X_2. -/
theorem C4_title_suffixing_amended_witness :
    mapKeys (storeParsedData (storeParsedData (storeParsedData {} c4Bundle) c4Bundle)
        c4Bundle).books = ["X", "X_1", "X_2"] := by
  have h := C4_title_suffixing_amended {} "X" c4Bundle c4Bundle c4Bundle rfl rfl rfl
    rfl rfl rfl
  simpa using h.1

/-- C4 counterexample: with X_1 already stored (and X absent, satisfying
the claim's hypothesis as frozen), three ingestions titled X produce the
stored titles X, X_2 and X_3 — not X, X_1 and X_2. -/
theorem C4_counterexample :
    mapKeys c4Store3.books = ["X_1", "X", "X_2", "X_3"] ∧
      (getBook c4Store3 "X_3").isSome = true := by
  constructor <;> decide

/-- C5: deleteBook on a present title returns true and removes every
annotation of that bundle from the flat index; on an absent title it
returns false and leaves the store unchanged. The no-duplicate-keys
hypothesis on the flat index is a structural property of every JS Map. -/
theorem C5_deleteBook_cascade (s : Store) (T : String)
    (hnd : (mapKeys s.notes).Nodup) :
    (∀ b, mapGet s.books T = some b →
      (deleteBook s T).1 = true ∧
        ∀ n ∈ b.notes, getNoteById (deleteBook s T).2 n.id = none) ∧
      (mapGet s.books T = none → deleteBook s T = (false, s)) := by
  constructor
  · intro b hb
    have hdb : deleteBook s T =
        (true, { notes := (b.notes.map (fun n => n.id)).foldl mapDelete s.notes
                 books := mapDelete s.books T }) := by
      unfold deleteBook
      rw [hb]
    rw [hdb]
    refine ⟨rfl, ?_⟩
    intro n hn
    show mapGet ((b.notes.map (fun m => m.id)).foldl mapDelete s.notes) n.id = none
    rw [mapGet_foldl_delete _ _ _ hnd]
    rw [if_pos (List.mem_map_of_mem _ hn)]
  · intro hb
    unfold deleteBook
    rw [hb]

/-- C5 witness: deleting the stored book removes its annotation from the
flat lookup and returns true; deleting an unknown title returns false with
the store unchanged. -/
theorem C5_deleteBook_cascade_witness :
    (deleteBook c5Store "B").1 = true ∧
      getNoteById (deleteBook c5Store "B").2 "n1" = none ∧
      deleteBook c5Store "ZZZ" = (false, c5Store) := by
  obtain ⟨h1, h2⟩ := (C5_deleteBook_cascade c5Store "B" (by decide)).1 _ rfl
  exact ⟨h1, h2 (mkManualNote "n1" "x") (by decide),
    (C5_deleteBook_cascade c5Store "ZZZ" (by decide)).2 rfl⟩

/-- C9: on an id absent from the flat index, updateNote and deleteNote
return false and the store value is returned unchanged: no annotation,
bundle, count or index entry is modified. -/
theorem C9_unknown_id_noop (s : Store) (noteId : String) (u : NoteUpdates)
    (now : Nat) (h : mapGet s.notes noteId = none) :
    updateNote s noteId u now = (false, s) ∧ deleteNote s noteId = (false, s) := by
  constructor
  · unfold updateNote
    rw [h]
  · unfold deleteNote
    rw [h]

/-- C9 witness: mutating a missing id in a concrete one-annotation store
returns false and the identical store. -/
theorem C9_unknown_id_noop_witness :
    updateNote c9Store "missing" {} 7 = (false, c9Store) ∧
      deleteNote c9Store "missing" = (false, c9Store) :=
  C9_unknown_id_noop c9Store "missing" {} 7 rfl

theorem sInc_empty_left (pat : String) : sInc "" pat = pat.data.isEmpty := rfl

/-- C10: the empty query lowercases to the empty string, which is a
substring of every annotation's content, so search returns every
annotation of the flat index in insertion order. -/
theorem C10_empty_query_returns_all (s : Store) :
    searchNotes s "" = getAllNotes s := by
  unfold searchNotes getAllNotes
  refine List.filter_eq_self.mpr ?_
  intro n _
  unfold noteMatches
  rw [sInc_of_data_nil (jsToLower n.content) (jsToLower "") rfl]
  simp

/-- The match condition of searchNotes, spelled out over the optional
fields: the chapter contributes only when present and nonempty (the JS
truthiness guard), a tag when any member matches. -/
theorem noteMatches_iff (term : String) (n : BookNote) :
    noteMatches term n = true ↔
      (sInc (jsToLower n.content) term = true ∨
       sInc (jsToLower n.bookTitle) term = true ∨
       (∃ c, n.chapter = some c ∧ c.isEmpty = false ∧
         sInc (jsToLower c) term = true) ∨
       (∃ ts, n.tags = some ts ∧ ∃ t ∈ ts, sInc (jsToLower t) term = true)) := by
  unfold noteMatches
  rcases hc : n.chapter with _ | c <;> rcases ht : n.tags with _ | ts <;>
    simp [List.any_eq_true, or_assoc]

/-- C8: a stored annotation is returned by search exactly when the
lowercased query occurs in its lowercased content, book title, chapter
(when present) or some tag (when present). An empty chapter is skipped by
the source's truthiness guard, but a query matching inside an empty
chapter is itself empty and already matches through the content. -/
theorem C8_search_iff (s : Store) (q : String) (n : BookNote)
    (hn : n ∈ getAllNotes s) :
    n ∈ searchNotes s q ↔
      (sInc (jsToLower n.content) (jsToLower q) = true ∨
       sInc (jsToLower n.bookTitle) (jsToLower q) = true ∨
       (∃ c, n.chapter = some c ∧ sInc (jsToLower c) (jsToLower q) = true) ∨
       (∃ ts, n.tags = some ts ∧ ∃ t ∈ ts,
         sInc (jsToLower t) (jsToLower q) = true)) := by
  unfold getAllNotes at hn
  unfold searchNotes
  rw [List.mem_filter]
  simp only [hn, true_and]
  rw [noteMatches_iff]
  constructor
  · rintro (h | h | ⟨c, hc, _, hs⟩ | h)
    · exact Or.inl h
    · exact Or.inr (Or.inl h)
    · exact Or.inr (Or.inr (Or.inl ⟨c, hc, hs⟩))
    · exact Or.inr (Or.inr (Or.inr h))
  · rintro (h | h | ⟨c, hc, hs⟩ | h)
    · exact Or.inl h
    · exact Or.inr (Or.inl h)
    · rcases hce : c.isEmpty with _ | _
      · exact Or.inr (Or.inr (Or.inl ⟨c, hc, hce, hs⟩))
      · left
        have hcnil : c = "" := (String.isEmpty_iff c).mp hce
        subst hcnil
        rw [show jsToLower "" = "" from rfl, sInc_empty_left] at hs
        refine sInc_of_data_nil _ _ ?_
        simpa using hs
    · exact Or.inr (Or.inr (Or.inr h))

/-- C8 witness: the JavaScript-tips annotation is returned by
search(javascript) and not by search(Python). -/
theorem C8_search_iff_witness :
    c8Note ∈ searchNotes c8Store "javascript" ∧
      c8Note ∉ searchNotes c8Store "Python" := by
  constructor
  · exact (C8_search_iff c8Store "javascript" c8Note (by decide)).mpr
      (Or.inl (by decide))
  · intro hmem
    rcases (C8_search_iff c8Store "Python" c8Note (by decide)).mp hmem with
      h | h | ⟨c, hc, _⟩ | ⟨ts, ht, _⟩
    · exact absurd h (by decide)
    · exact absurd h (by decide)
    · exact absurd hc (by simp [c8Note])
    · exact absurd ht (by simp [c8Note])

theorem duokanPlainFold_filtered (env : JsEnv) (t a : String) (lines : List String)
    (h : ∀ l ∈ lines, duokanLineKept (jsTrim l) = false) :
    ∀ acc, duokanPlainFold env t a lines acc = acc := by
  induction lines with
  | nil => intro acc; rfl
  | cons l rest ih =>
    intro acc
    obtain ⟨notes, idx⟩ := acc
    simp only [duokanPlainFold, h l (List.mem_cons_self _ _), Bool.false_eq_true,
      if_false]
    exact ih (fun x hx => h x (List.mem_cons_of_mem _ hx)) _

/-- C2: for detector-accepted input failing the JSON parse, parse falls
through to the XML or plain-text sub-format rather than returning the
placeholder unconditionally — proved here as amended: the placeholder
bundle (title Unknown Book, no annotations) is produced exactly when the
fallback heuristics extract nothing, that is when the input also lacks XML
markers, title and author labels, and every line is rejected by the
plain-text content filter. -/
theorem C2_malformed_input_placeholder (env : JsEnv) (content : String)
    (hj : duokanIsValidJSON content = false)
    (hx : duokanIsValidXML content = false)
    (ht : findLabelCapture "书名" content = none)
    (ha : findLabelCapture "作者" content = none)
    (hl : ∀ l ∈ sSplit content '\n', duokanLineKept (jsTrim l) = false) :
    (duokanParse env content).metadata.title = "Unknown Book" ∧
      (duokanParse env content).notes = [] := by
  unfold duokanParse
  simp only [hj, hx, Bool.false_eq_true, if_false]
  unfold duokanParsePlainText
  simp only [ht, ha]
  rw [duokanPlainFold_filtered env _ _ _
    (fun l hls => hl l (List.mem_of_mem_filter hls)) ([], 0)]
  constructor
  · trivial
  · rfl

/-- C2 witness: the repository's truncated-JSON test input is accepted by
the detector, fails the JSON parse, and every fallback heuristic rejects
it, so parse returns the placeholder bundle. -/
theorem C2_malformed_input_placeholder_witness :
    (duokanParse env0 c2Filtered).metadata.title = "Unknown Book" ∧
      (duokanParse env0 c2Filtered).notes = [] :=
  C2_malformed_input_placeholder env0 c2Filtered (by decide) (by decide) (by decide)
    (by decide) (by decide)

/-- C2 counterexample: detector-accepted JSON-like input that fails the
JSON parse yet whose single long line survives the plain-text filter, so
parse returns one annotation instead of the claimed empty placeholder. -/
theorem C2_counterexample :
    duokanValidate c2Bad = true ∧ duokanIsValidJSON c2Bad = false ∧
      (duokanParse env0 c2Bad).metadata.title = "Unknown Book" ∧
      (duokanParse env0 c2Bad).notes.map (fun n => n.content)
        = ["\x7b\"bookTitle\": \"多看书\", \"notes\": [这是一条超过五个字符的笔记内容"] := by
  refine ⟨by decide, by decide, by decide, by decide⟩

/-- C3: the claim that a recognized parser's parse never throws fails on
the code: this CSV input is recognized by the WeChat detector (through the
读书笔记 marker), its header row places 内容 at column index 2, and the
two-column data row makes parseCSV read columns[2] — undefined — and throw
from the .replace call; the model returns none (no bundle) there. -/
theorem C3_wechat_parse_throws :
    wechatValidate c3Bad = true ∧ c3Bad ≠ "" ∧
      (wechatParse env0 c3Bad).isSome = false := by
  refine ⟨by decide, by decide, by decide⟩

/-- C6: amended — the sorting step of the renderer has branches only for
position (position with default 0) and date (creation timestamp); the
chapter value has no branch, so rendering with sortBy chapter emits the
annotations in their given order rather than lexicographically by chapter
label. -/
theorem C6_sorting_amended (notes : List BookNote) :
    sortNotes .chapter notes = notes ∧
      (sortNotes .position notes).Perm notes ∧
      List.Sorted (fun a b => posKey a ≤ posKey b) (sortNotes .position notes) ∧
      (sortNotes .date notes).Perm notes ∧
      List.Sorted (fun a b => a.createdAt ≤ b.createdAt) (sortNotes .date notes) := by
  refine ⟨rfl, List.perm_insertionSort _ _, ?_, List.perm_insertionSort _ _, ?_⟩
  · exact @List.sorted_insertionSort BookNote (fun a b => posKey a ≤ posKey b) _
      ⟨fun a b => Int.le_total _ _⟩ ⟨fun a b c hab hbc => le_trans hab hbc⟩ notes
  · exact @List.sorted_insertionSort BookNote (fun a b => a.createdAt ≤ b.createdAt) _
      ⟨fun a b => Nat.le_total _ _⟩ ⟨fun a b c hab hbc => le_trans hab hbc⟩ notes

set_option maxRecDepth 40000 in
/-- C6 counterexample: two annotations whose chapter labels order them
AAA before BBB are rendered with sortBy chapter in their given order, BBB
first, so the output is not ordered lexicographically by chapter label. -/
theorem C6_counterexample :
    lexLtChars (c6NoteA.chapter.getD "").data (c6NoteB.chapter.getD "").data = true ∧
      sortNotes .chapter [c6NoteB, c6NoteA] = [c6NoteB, c6NoteA] ∧
      beforeIn (format env0 [c6NoteB, c6NoteA] c6Opts) "BBB" "AAA" = true := by
  refine ⟨by decide, rfl, by decide⟩

theorem forall_mem_append_singleton (P : α → Prop) (l : List α) (v : α)
    (hl : ∀ x ∈ l, P x) (hv : P v) : ∀ x ∈ l ++ [v], P x := by
  intro x hx
  rcases List.mem_append.mp hx with h | h
  · exact hl x h
  · rcases List.mem_singleton.mp h with rfl
    exact hv

theorem ne_empty_of_five_lt (s : String) (h : 5 < s.length) : s ≠ "" := by
  intro hc
  rw [hc] at h
  exact absurd h (by decide)

theorem ne_empty_of_isEmpty_false (s : String) (h : s.isEmpty = false) : s ≠ "" := by
  intro hc
  rw [hc] at h
  exact absurd h (by decide)

theorem ne_empty_of_not_isEmpty (s : String) (h : (!s.isEmpty) = true) : s ≠ "" := by
  intro hc
  rw [hc] at h
  exact absurd h (by decide)

theorem duokanLineKept_length (s : String) (h : duokanLineKept s = true) :
    5 < s.length := by
  unfold duokanLineKept at h
  split at h
  · exact absurd h (by simp)
  · split at h
    · exact absurd h (by simp)
    · split at h
      · exact absurd h (by simp)
      · simp only [Bool.and_eq_true, decide_eq_true_eq] at h
        exact h.1.1.1.1.1

theorem duokanPlainFold_content (env : JsEnv) (t a : String) (lines : List String) :
    ∀ notes idx, (∀ n ∈ notes, n.content ≠ "") →
      ∀ n ∈ (duokanPlainFold env t a lines (notes, idx)).1, n.content ≠ "" := by
  induction lines with
  | nil => intro notes idx h; exact h
  | cons l rest ih =>
    intro notes idx h
    rw [duokanPlainFold]
    split
    · next hk =>
      exact ih _ _ (forall_mem_append_singleton _ _ _ h
        (ne_empty_of_five_lt _ (duokanLineKept_length _ hk)))
    · exact ih _ _ h

theorem wechatFmtStep1_content (env : JsEnv) (bt au ch line : String)
    (lines : List String) (st : List BookNote × Nat × Nat)
    (h : ∀ n ∈ st.1, n.content ≠ "") :
    ∀ n ∈ (wechatFmtStep1 env bt au ch line lines st).1, n.content ≠ "" := by
  unfold wechatFmtStep1
  split
  · split
    · dsimp only
      split
      · next hg =>
        simp only [Bool.and_eq_true] at hg
        exact forall_mem_append_singleton _ _ _ h
          (ne_empty_of_not_isEmpty _ hg.1.1)
      · exact h
    · exact h
  · exact h

theorem wechatFmtStep2_content (env : JsEnv) (bt au ch line : String)
    (lines : List String) (st : List BookNote × Nat × Nat)
    (h : ∀ n ∈ st.1, n.content ≠ "") :
    ∀ n ∈ (wechatFmtStep2 env bt au ch line lines st).1, n.content ≠ "" := by
  unfold wechatFmtStep2
  split
  · split
    · dsimp only
      split
      · next hg =>
        simp only [Bool.and_eq_true] at hg
        exact forall_mem_append_singleton _ _ _ h
          (ne_empty_of_not_isEmpty _ hg.1.1)
      · exact h
    · exact h
  · exact h

theorem wechatFmtStep3_content (env : JsEnv) (bt au ch line : String)
    (lines : List String) (st : List BookNote × Nat × Nat)
    (h : ∀ n ∈ st.1, n.content ≠ "") :
    ∀ n ∈ (wechatFmtStep3 env bt au ch line lines st).1, n.content ≠ "" := by
  unfold wechatFmtStep3
  split
  · split
    · dsimp only
      split
      · next hg =>
        exact forall_mem_append_singleton _ _ _ h
          (ne_empty_of_not_isEmpty _ hg)
      · exact h
    · exact h
  · exact h

theorem wechatFmtLoop_content (env : JsEnv) (bt au : String) (lines : List String) :
    ∀ fuel i ch notes idx, (∀ n ∈ notes, n.content ≠ "") →
      ∀ n ∈ wechatFmtLoop env bt au lines fuel i ch notes idx, n.content ≠ "" := by
  intro fuel
  induction fuel with
  | zero => intro i ch notes idx h; exact h
  | succ fuel ih =>
    intro i ch notes idx h
    rw [wechatFmtLoop]
    cases hline : lines[i]? with
    | none => exact h
    | some rawLine =>
      dsimp only
      split
      · exact ih _ _ _ _ h
      · exact ih _ _ _ _
          (wechatFmtStep3_content _ _ _ _ _ _ _
            (wechatFmtStep2_content _ _ _ _ _ _ _
              (wechatFmtStep1_content _ _ _ _ _ _ _ h)))

theorem wechatPlainLoop_content (env : JsEnv) (bt au : String) (lines : List String) :
    ∀ fuel i ch notes idx, (∀ n ∈ notes, n.content ≠ "") →
      ∀ n ∈ wechatPlainLoop env bt au lines fuel i ch notes idx, n.content ≠ "" := by
  intro fuel
  induction fuel with
  | zero => intro i ch notes idx h; exact h
  | succ fuel ih =>
    intro i ch notes idx h
    rw [wechatPlainLoop]
    cases hline : lines[i]? with
    | none => exact h
    | some rawLine =>
      dsimp only
      split
      · exact ih _ _ _ _ h
      · split
        · split
          · next hg =>
            exact ih _ _ _ _ (forall_mem_append_singleton _ _ _ h
              (ne_empty_of_not_isEmpty _ hg))
          · exact ih _ _ _ _ h
        · split
          · split
            · next hg =>
              exact ih _ _ _ _ (forall_mem_append_singleton _ _ _ h
                (ne_empty_of_not_isEmpty _ hg))
            · exact ih _ _ _ _ h
          · split
            · split
              · next hg =>
                exact ih _ _ _ _ (forall_mem_append_singleton _ _ _ h
                  (ne_empty_of_not_isEmpty _ hg))
              · exact ih _ _ _ _ h
            · split
              · split
                · split
                  · next hg =>
                    simp only [Bool.and_eq_true, decide_eq_true_eq] at hg
                    exact ih _ _ _ _ (forall_mem_append_singleton _ _ _ h
                      (ne_empty_of_five_lt _ hg.2))
                  · exact ih _ _ _ _ h
                · exact ih _ _ _ _ h
              · exact ih _ _ _ _ h

theorem wechatCsvRow_content (env : JsEnv) (headers : List String) (i : Nat)
    (line : String) (l : List BookNote) (h : wechatCsvRow env headers i line = some l) :
    ∀ n ∈ l, n.content ≠ "" := by
  unfold wechatCsvRow at h
  dsimp only at h
  split at h
  · split at h
    · exact absurd h (by simp)
    · split at h
      · exact absurd h (by simp)
      · split at h
        · exact absurd h (by simp)
        · split at h
          · next hg =>
            rcases Option.some.inj h with rfl
            intro n hn
            rcases List.mem_singleton.mp hn with rfl
            exact ne_empty_of_not_isEmpty _ hg
          · rcases Option.some.inj h with rfl
            intro n hn
            simp at hn
  · rcases Option.some.inj h with rfl
    intro n hn
    simp at hn

theorem wechatCsvRows_content (env : JsEnv) (headers : List String) :
    ∀ rows l, wechatCsvRows env headers rows = some l → ∀ n ∈ l, n.content ≠ "" := by
  intro rows
  induction rows with
  | nil =>
    intro l h
    rcases Option.some.inj h with rfl
    intro n hn
    simp at hn
  | cons r rest ih =>
    intro l h
    obtain ⟨i, line⟩ := r
    unfold wechatCsvRows at h
    split at h
    · exact absurd h (by simp)
    · next l₁ h₁ =>
      split at h
      · exact absurd h (by simp)
      · next ls hls =>
        rcases Option.some.inj h with rfl
        intro n hn
        rcases List.mem_append.mp hn with hm | hm
        · exact wechatCsvRow_content env headers i line l₁ h₁ n hm
        · exact ih ls hls n hm

/-- C7: amended — the CSV, WeChat-export and both plain-text sub-format
paths never store an annotation with empty content (each push is guarded
by a nonemptiness or minimum-length test); the JSON paths, however,
default a missing content/text field to the empty string and store it
(counterexample), and the XML path stores the captured tag text verbatim,
empty or not. -/
theorem C7_guarded_paths_nonempty_content (env : JsEnv) (c : String) :
    (∀ n ∈ (duokanParsePlainText env c).notes, n.content ≠ "") ∧
      (∀ n ∈ (wechatParsePlainText env c).notes, n.content ≠ "") ∧
      (∀ n ∈ (wechatParseWeChatFormat env c).notes, n.content ≠ "") ∧
      (∀ b, wechatParseCSV env c = some b → ∀ n ∈ b.notes, n.content ≠ "") := by
  refine ⟨?_, ?_, ?_, ?_⟩
  · exact duokanPlainFold_content env _ _ _ [] 0 (by simp)
  · exact wechatPlainLoop_content env _ _ _ _ 0 "" [] 0 (by simp)
  · exact wechatFmtLoop_content env _ _ _ _ 0 "" [] 0 (by simp)
  · intro b hb
    unfold wechatParseCSV at hb
    dsimp only at hb
    split at hb
    · exact absurd hb (by simp)
    · split at hb
      · exact absurd hb (by simp)
      · next notes hrows =>
        rcases Option.some.inj hb with rfl
        exact wechatCsvRows_content env _ _ _ hrows

/-- C7 counterexample: valid JSON whose annotation object has no content
or text field parses into a stored annotation whose content is the empty
string, so the claim that parsers drop empty content fails on the JSON
path. -/
theorem C7_counterexample :
    duokanValidate c7Json = true ∧
      (duokanParse env0 c7Json).notes.map (fun n => n.content) = [""] := by
  exact ⟨by decide, by decide⟩
